import Mathlib

/-!
# RD-03 presence sensor driver: frame decoder and session

A shallow embedding of `src/src/RD-03.cpp` and `src/include/typedefs.h`.

* 8-bit machine integers (`uint8_t`) are natural numbers, reduced `% 256`
  wherever the C code stores a computed value into an 8-bit object.
* `serial_data.buffer` (`uint8_t buffer[512]`) is a list of bytes; a store is
  `List.set`, a load is `List.getD _ _ 0`.
* The serial transport is a schedule of poll results: `none` when
  `HS->available()` is false, `some b` when a byte `b` is delivered.
* The blocking loop of `read()` runs over such a schedule and gives back the
  object together with the part of the schedule it did not consume; the loop is
  still spinning exactly when `start_reading` is `true` in the result.
* `begin()` gives back the object together with its effects on the transport in
  program order; `transmitted` keeps the frames written.
* `onByteAccesses` lists the buffer indices that one pass through the loop body
  touches, with the index computed on `int` as in the C expressions.
-/

namespace Rd03

/-! ## `typedefs.h` -/

/-- Index of the first header byte (`enum Constants`). -/
def FH_0 : Nat := 0x00
/-- Index of the second header byte. -/
def FH_1 : Nat := 0x01
/-- Index of the third header byte. -/
def FH_2 : Nat := 0x02
/-- Index of the fourth header byte. -/
def FH_3 : Nat := 0x03
/-- Offset of the presence byte from the start of a frame. -/
def SOMEONE : Nat := 0x06
/-- Offset of the first range byte from the start of a frame. -/
def TARGET_RANGE_0 : Nat := 0x07
/-- Offset of the second range byte from the start of a frame. -/
def TARGET_RANGE_1 : Nat := 0x08
/-- Offset of the parameter byte inside a command array. -/
def PARAMETER_VALUE : Nat := 0x0A
/-- Last byte of the frame header. -/
def FH_LAST : Nat := 0xF1
/-- Last byte of the frame trailer. -/
def FE_LAST : Nat := 0xF5

/-- The baud rate defined in `typedefs.h`. -/
def LD2461_DEFAULT_BAUD : Nat := 115200

/-- The struct `serial_buffer_struct`: a 512-byte array with an 8-bit fill
count and an 8-bit frame marker. -/
structure serial_buffer_struct where
  buffer : List Nat
  size : Nat
  frame_start : Nat
deriving DecidableEq, Repr

/-- Declared capacity of `serial_buffer_struct.buffer`. -/
def BUFFER_CAPACITY : Nat := 512

/-! ## Declarations of `RD-03.h` (the header is not part of the sources) -/

/-- Modelled from the spec: the arrays `FRAME_HEADER` and `FRAME_END` are
declared in `RD-03.h`, which is missing; the spec fixes only their width (four
bytes) and their last bytes, so their contents are a parameter of the
decoder. `sizeof` of an array is the length of the list. -/
structure Signatures where
  FRAME_HEADER : List Nat
  FRAME_END : List Nat
deriving DecidableEq, Repr

/-- Modelled from the spec: the six command arrays are declared in `RD-03.h`,
which is missing; their contents are a parameter. -/
structure CommandTable where
  open_command_mode : List Nat
  close_command_mode : List Nat
  set_min_distance : List Nat
  set_max_distance : List Nat
  set_delay_time : List Nat
  reporting_mode : List Nat
deriving DecidableEq, Repr

/-- The data members of class `RD03` that the member functions use. -/
structure RD03 where
  with_pins : Bool
  rx_pin : Nat
  tx_pin : Nat
  start_reading : Bool
  serial_data : serial_buffer_struct
  someone : Nat
  distance : Nat
  min_detection_distance : Nat
  max_detection_distance : Nat
  disappear_delay : Nat
  commands : CommandTable
deriving DecidableEq, Repr

/-- What `begin` does to the outside world, in program order. -/
inductive Effect where
  | serialBegin (baud : Nat)
  | serialBeginPins (baud rx tx : Nat)
  | delay (ms : Nat)
  | write (bytes : List Nat)
deriving DecidableEq, Repr

/-! ## `RD03::begin` -/

/-- The method `RD03::begin(_min, _max, _delay)`; the arguments are 8-bit. The
result is the object afterwards and the effects on the transport in order. -/
def begin (s : RD03) (_min _max _delay : Nat) : RD03 × List Effect :=
  let open_effect :=
    if !s.with_pins then Effect.serialBegin LD2461_DEFAULT_BAUD
    else Effect.serialBeginPins LD2461_DEFAULT_BAUD s.rx_pin s.tx_pin
  let _max := if _max > 15 then 15 else if _max < 0 then 0 else _max
  let _min := if _min > 15 then 15 else if _min < 0 then 0 else _min
  let _delay := if _delay > 30 then 30 else if _delay < 0 then 0 else _delay
  let cmds : CommandTable :=
    { s.commands with
      set_max_distance := s.commands.set_max_distance.set PARAMETER_VALUE _max,
      set_delay_time := s.commands.set_delay_time.set PARAMETER_VALUE _delay }
  let s1 : RD03 :=
    { s with
      commands := cmds,
      min_detection_distance := _min,
      max_detection_distance := _max,
      disappear_delay := _delay }
  (s1,
    [open_effect,
     Effect.delay 100,
     Effect.write cmds.open_command_mode,
     Effect.delay 150,
     Effect.write cmds.set_min_distance,
     Effect.delay 150,
     Effect.write cmds.set_max_distance,
     Effect.delay 150,
     Effect.write cmds.set_delay_time,
     Effect.delay 150,
     Effect.write cmds.reporting_mode,
     Effect.delay 150,
     Effect.write cmds.close_command_mode,
     Effect.delay 150])

/-! ## `RD03::read` -/

/-- The comparison `memcmp(buffer + off, pat, n) == 0`. -/
def memcmpEq (buffer : List Nat) (off : Nat) (pat : List Nat) (n : Nat) : Bool :=
  (List.range n).all fun i => buffer.getD (off + i) 0 == pat.getD i 0

/-- Lines 123-125: `c` is stored at index `size`, then `size ++` on an 8-bit
counter. -/
def appendByte (sd : serial_buffer_struct) (c : Nat) : serial_buffer_struct :=
  { sd with buffer := sd.buffer.set sd.size c, size := (sd.size + 1) % 256 }

/-- The value `fh_size`: `sizeof(FRAME_HEADER)` stored in a `uint8_t`. -/
def fh_size (sig : Signatures) : Nat := sig.FRAME_HEADER.length % 256

/-- The value `fe_size`: `sizeof(FRAME_END)` stored in a `uint8_t`. -/
def fe_size (sig : Signatures) : Nat := sig.FRAME_END.length % 256

/-- The value `min_packet_size`: `sizeof(FRAME_HEADER) + fe_size + 5` stored in
a `uint8_t`. -/
def min_packet_size (sig : Signatures) : Nat :=
  (sig.FRAME_HEADER.length + fe_size sig + 5) % 256

/-- The condition of line 131. -/
def headerMatch (sig : Signatures) (sd : serial_buffer_struct) : Bool :=
  decide (sd.size ≥ fh_size sig) &&
    memcmpEq sd.buffer (sd.size - fh_size sig) sig.FRAME_HEADER (fh_size sig)

/-- The condition of line 142. -/
def trailerMatch (sig : Signatures) (sd : serial_buffer_struct) : Bool :=
  decide (sd.size ≥ min_packet_size sig) &&
    memcmpEq sd.buffer (sd.size - fe_size sig) sig.FRAME_END (fe_size sig)

/-- The header re-check of lines 144-145. -/
def headerRecheck (sig : Signatures) (sd : serial_buffer_struct) : Bool :=
  (sd.buffer.getD (sd.frame_start + FH_0) 0 == sig.FRAME_HEADER.getD 0 0) &&
  (sd.buffer.getD (sd.frame_start + FH_1) 0 == sig.FRAME_HEADER.getD 1 0) &&
  (sd.buffer.getD (sd.frame_start + FH_2) 0 == sig.FRAME_HEADER.getD 2 0) &&
  (sd.buffer.getD (sd.frame_start + 3) 0 == sig.FRAME_HEADER.getD FH_3 0)

/-- Lines 123-155: the body of `if (HS->available())` for the byte `b` that
`HS->read()` returns. -/
def onByte (sig : Signatures) (s : RD03) (b : Nat) : RD03 :=
  let c := b % 256
  let sd := appendByte s.serial_data c
  if c = FH_LAST then
    if headerMatch sig sd then
      { s with serial_data := { sd with frame_start := (sd.size - fh_size sig) % 256 } }
    else
      { s with serial_data := sd }
  else if c = FE_LAST then
    if trailerMatch sig sd then
      let s1 : RD03 :=
        if headerRecheck sig sd then
          { s with
            someone := sd.buffer.getD (sd.frame_start + SOMEONE) 0,
            distance := sd.buffer.getD (sd.frame_start + TARGET_RANGE_0) 0 }
        else s
      { s1 with
        serial_data := { sd with size := 0, frame_start := 0 },
        start_reading := false }
    else
      { s with serial_data := sd }
  else
    { s with serial_data := sd }

/-- One pass through the body of `while (start_reading)`: a poll of the
transport. -/
def poll (sig : Signatures) (s : RD03) : Option Nat → RD03
  | none => s
  | some b => onByte sig s b

/-- The loop `while (start_reading)` run over a poll schedule. The second
component is the part of the schedule that was not consumed. -/
def loop (sig : Signatures) : RD03 → List (Option Nat) → RD03 × List (Option Nat)
  | s, [] => (s, [])
  | s, e :: rest =>
    if s.start_reading then loop sig (poll sig s e) rest else (s, e :: rest)

/-- Lines 116-118: the entry of `read()`. -/
def readEntry (s : RD03) : RD03 :=
  { s with
    start_reading := true,
    serial_data := { s.serial_data with size := 0, frame_start := 0 } }

/-- The method `RD03::read()` run over a poll schedule. -/
def read (sig : Signatures) (s : RD03) (schedule : List (Option Nat)) :
    RD03 × List (Option Nat) :=
  loop sig (readEntry s) schedule

/-- The bytes a poll schedule delivers, in order. -/
def delivered (schedule : List (Option Nat)) : List Nat :=
  schedule.filterMap id

/-- The schedule that delivers the given bytes back to back. -/
def backToBack (bytes : List Nat) : List (Option Nat) :=
  bytes.map some

/-- The loop `while (start_reading)` when the bytes arrive back to back (every
poll finds a byte). The second component is the bytes not consumed. -/
def feed (sig : Signatures) : RD03 → List Nat → RD03 × List Nat
  | s, [] => (s, [])
  | s, b :: bs =>
    if s.start_reading then feed sig (onByte sig s b) bs else (s, b :: bs)

/-- Number of bytes `read()` takes from the transport under a schedule. -/
def bytesConsumed (sig : Signatures) (s : RD03) (schedule : List (Option Nat)) : Nat :=
  (delivered schedule).length - (delivered (read sig s schedule).2).length

/-! ## Positions in a byte stream

Position `p` of a stream is the point after its first `p` bytes. -/

/-- The header signature ends at position `p` of the stream: the `fh_size`
bytes before `p` compare equal to `FRAME_HEADER`. -/
def headerEndsAt (sig : Signatures) (bytes : List Nat) (p : Nat) : Bool :=
  decide (fh_size sig ≤ p) && decide (p ≤ bytes.length) &&
    memcmpEq bytes (p - fh_size sig) sig.FRAME_HEADER (fh_size sig)

/-- The trailer signature ends at position `p` of the stream. -/
def trailerEndsAt (sig : Signatures) (bytes : List Nat) (p : Nat) : Bool :=
  decide (fe_size sig ≤ p) && decide (p ≤ bytes.length) &&
    memcmpEq bytes (p - fe_size sig) sig.FRAME_END (fe_size sig)

/-- Start of the last header signature that ends at or before position `p`
(`0` when there is none). -/
def lastHeaderStart (sig : Signatures) (bytes : List Nat) : Nat → Nat
  | 0 => 0
  | p + 1 =>
    if headerEndsAt sig bytes (p + 1) then (p + 1) - fh_size sig
    else lastHeaderStart sig bytes p

/-- The object while `read()` is still running after it has taken the bytes
`bytes` (fewer than 256 of them): the buffer starts with the stream, the
counter is its length and the marker is the start of the last header seen. -/
def afterBytes (sig : Signatures) (s : RD03) (bytes : List Nat) : RD03 :=
  { s with
    start_reading := true,
    serial_data :=
      { buffer := bytes ++ s.serial_data.buffer.drop bytes.length,
        size := bytes.length,
        frame_start := lastHeaderStart sig bytes bytes.length } }

/-- The buffer right after `read()` has stored the byte `c`, when the bytes
`pre` were taken before it in the same call. -/
def bufferAtByte (sig : Signatures) (s : RD03) (pre : List Nat) (c : Nat) :
    serial_buffer_struct :=
  appendByte (read sig s (backToBack pre)).1.serial_data (c % 256)

/-! ## `RD03::getSomeone` -/

/-- The method `RD03::getSomeone()`; the operands are promoted to `int`, so the
products are not reduced. -/
def getSomeone (s : RD03) : Bool :=
  decide (s.someone > 0) &&
  decide (s.distance ≥ s.min_detection_distance * 70) &&
  decide (s.distance ≤ s.max_detection_distance * 70)

end Rd03

namespace Rd03

/-! ## Concrete instances used for evaluation -/

/-- A signature pair of the required shape (header ending in `0xF1`, trailer
ending in `0xF5`), used to evaluate the decoder on concrete streams. -/
def sampleSignatures : Signatures :=
  { FRAME_HEADER := [0xF4, 0xF3, 0xF2, 0xF1], FRAME_END := [0xF8, 0xF7, 0xF6, 0xF5] }

/-- A command table with 12-byte parameter commands, used for evaluation. -/
def sampleCommands : CommandTable :=
  { open_command_mode := [0xFD, 0xFC, 0xFB, 0xFA, 0x04, 0x00, 0xFF, 0x00, 0x01, 0x00, 0x04, 0x03, 0x02, 0x01],
    close_command_mode := [0xFD, 0xFC, 0xFB, 0xFA, 0x02, 0x00, 0xFE, 0x00, 0x04, 0x03, 0x02, 0x01],
    set_min_distance := [0xFD, 0xFC, 0xFB, 0xFA, 0x08, 0x00, 0x07, 0x00, 0x00, 0x00, 0x00, 0x00, 0x00, 0x00, 0x04, 0x03, 0x02, 0x01],
    set_max_distance := [0xFD, 0xFC, 0xFB, 0xFA, 0x08, 0x00, 0x07, 0x00, 0x01, 0x00, 0x00, 0x00, 0x00, 0x00, 0x04, 0x03, 0x02, 0x01],
    set_delay_time := [0xFD, 0xFC, 0xFB, 0xFA, 0x08, 0x00, 0x07, 0x00, 0x04, 0x00, 0x00, 0x00, 0x00, 0x00, 0x04, 0x03, 0x02, 0x01],
    reporting_mode := [0xFD, 0xFC, 0xFB, 0xFA, 0x08, 0x00, 0x12, 0x00, 0x00, 0x00, 0x04, 0x00, 0x00, 0x00, 0x04, 0x03, 0x02, 0x01] }

/-- An object as the three-argument constructor leaves it, with a zeroed
buffer. -/
def freshDevice : RD03 :=
  { with_pins := true, rx_pin := 16, tx_pin := 17, start_reading := false,
    serial_data := { buffer := List.replicate 512 0, size := 0, frame_start := 0 },
    someone := 0, distance := 0,
    min_detection_distance := 0, max_detection_distance := 0, disappear_delay := 0,
    commands := sampleCommands }

/-- A decoded reading of presence 1 at raw distance 100 with the window set to
`1 .. 3`. -/
def sampleReading : RD03 :=
  { freshDevice with
    someone := 1, distance := 100,
    min_detection_distance := 1, max_detection_distance := 3 }

/-- The frame of the worked example: `FRAME_HEADER`, then the two length
bytes, presence 1, range bytes 5 and 0, then `FRAME_END`. -/
def exampleFrame (sig : Signatures) (len0 len1 : Nat) : List Nat :=
  sig.FRAME_HEADER ++ [len0, len1, 1, 5, 0] ++ sig.FRAME_END

/-- A well-formed 13-byte frame (presence 1, range 5) behind 243 noise bytes:
256 bytes in all, its last byte is the 256th. -/
def frameBehindNoise : List Nat :=
  List.replicate 243 0 ++ exampleFrame sampleSignatures 0 0

/-- Nine noise bytes, then a header directly followed by a trailer: the trailer
ends 8 bytes after the start of the header. -/
def shortFrame : List Nat :=
  List.replicate 9 0 ++ sampleSignatures.FRAME_HEADER ++ sampleSignatures.FRAME_END

/-- Nine noise bytes, a trailer with no header before it, and one more byte. -/
def orphanTrailer : List Nat :=
  List.replicate 9 0 ++ sampleSignatures.FRAME_END ++ [7]

/-- A header, one stray byte, a second header with its payload (presence 1,
range 5) and the trailer. -/
def twoHeaders : List Nat :=
  sampleSignatures.FRAME_HEADER ++ [0xAA] ++ exampleFrame sampleSignatures 5 0

/-- A header whose payload carries presence 9 and range 7 behind 100 noise
bytes, 143 more noise bytes, then a well-formed frame (presence 1, range 5)
whose header ends on byte 256, four noise bytes before its trailer: 269 bytes,
the trailer ends at position 269. -/
def secondHeaderAtWrap : List Nat :=
  List.replicate 100 0 ++ sampleSignatures.FRAME_HEADER ++ [0, 0, 9, 7, 0] ++
    List.replicate 143 0 ++ sampleSignatures.FRAME_HEADER ++ [0, 0, 1, 5, 0] ++
    List.replicate 4 0 ++ sampleSignatures.FRAME_END

/-- More zero bytes than the buffer has room for. -/
def overflowStream : List Nat := List.replicate 513 0

/-- The example frame delivered with idle polls in between. -/
def idleSchedule : List (Option Nat) :=
  [none, some 0xF4, some 0xF3, none, none, some 0xF2, some 0xF1, some 0, none, some 0,
   some 1, some 5, none, some 0, some 0xF8, some 0xF7, none, some 0xF6, some 0xF5, none]

/-- The frames among the effects of `begin`, i.e. the arguments of the calls
`HS->write(...)`, in program order. -/
def transmitted (effects : List Effect) : List (List Nat) :=
  effects.filterMap fun e =>
    match e with
    | Effect.write bytes => some bytes
    | _ => none

/-! ## Buffer accesses and stream conditions -/

/-- One access of `read()` to `serial_data.buffer`, with the index as the C
expression computes it (an `int`, so that a negative offset can be told). -/
inductive Access where
  | store (index : Int)
  | compare (index : Int)
  | recheck (index : Int)
  | extract (index : Int)
deriving DecidableEq, Repr

/-- The index of an access. -/
def Access.index : Access → Int
  | Access.store i => i
  | Access.compare i => i
  | Access.recheck i => i
  | Access.extract i => i

/-- Whether the access reads the buffer (everything but the store of line
124). -/
def Access.isRead : Access → Bool
  | Access.store _ => false
  | _ => true

/-- The bounds claimed for each kind of access: stores within `0..255`,
comparisons within `0..254`, re-check and field reads within `0..262`. -/
def Access.withinClaimed : Access → Bool
  | Access.store i => decide (0 ≤ i) && decide (i ≤ 255)
  | Access.compare i => decide (0 ≤ i) && decide (i ≤ 254)
  | Access.recheck i => decide (0 ≤ i) && decide (i ≤ 262)
  | Access.extract i => decide (0 ≤ i) && decide (i ≤ 262)

/-- The indices `memcmp(buffer + size - n, _, n)` may read; the offset
`size - n` is computed on `int`. -/
def memcmpAccesses (size n : Nat) : List Access :=
  (List.range n).map fun (i : Nat) => Access.compare ((size : Int) - (n : Int) + (i : Int))

/-- The buffer accesses of lines 123-155 for the byte `b`, in program order.
The call of `memcmp` is listed only when the guard before `&&` holds, with all
the indices it may read; the four operands of the re-check are all listed
although `&&` may stop at the first mismatch. -/
def onByteAccesses (sig : Signatures) (s : RD03) (b : Nat) : List Access :=
  let c := b % 256
  let sd := appendByte s.serial_data c
  Access.store (s.serial_data.size : Int) ::
    (if c = FH_LAST then
      if sd.size ≥ fh_size sig then memcmpAccesses sd.size (fh_size sig) else []
    else if c = FE_LAST then
      (if sd.size ≥ min_packet_size sig then memcmpAccesses sd.size (fe_size sig) else []) ++
      (if trailerMatch sig sd then
        [Access.recheck ((sd.frame_start : Int) + (FH_0 : Int)),
         Access.recheck ((sd.frame_start : Int) + (FH_1 : Int)),
         Access.recheck ((sd.frame_start : Int) + (FH_2 : Int)),
         Access.recheck ((sd.frame_start : Int) + 3)] ++
        (if headerRecheck sig sd then
          [Access.extract ((sd.frame_start : Int) + (SOMEONE : Int)),
           Access.extract ((sd.frame_start : Int) + (TARGET_RANGE_0 : Int))]
        else [])
      else [])
    else [])

/-- The buffer accesses of the loop `while (start_reading)` over a poll
schedule. -/
def loopAccesses (sig : Signatures) : RD03 → List (Option Nat) → List Access
  | _, [] => []
  | s, none :: rest => if s.start_reading then loopAccesses sig s rest else []
  | s, some b :: rest =>
    if s.start_reading then onByteAccesses sig s b ++ loopAccesses sig (onByte sig s b) rest
    else []

/-- The buffer accesses of one call of `read()`. -/
def readAccesses (sig : Signatures) (s : RD03) (schedule : List (Option Nat)) : List Access :=
  loopAccesses sig (readEntry s) schedule

/-- The trailer completes the cycle at position `p` of the stream: the byte
received last is `0xF5`, the number of bytes received, counted modulo 256, is
at least 13, and the trailer signature ends at `p`. -/
def completesAt (sig : Signatures) (bytes : List Nat) (p : Nat) : Bool :=
  decide (1 ≤ p) && (bytes.getD (p - 1) 0 == FE_LAST) && decide (13 ≤ p % 256) &&
    trailerEndsAt sig bytes p

/-- The buffer follows the stream: the counter is the number of bytes received
modulo 256 and the entries below the counter are the bytes received since the
counter last wrapped to zero. -/
def BufferTracks (sd : serial_buffer_struct) (bytes : List Nat) : Prop :=
  sd.size = bytes.length % 256 ∧ sd.buffer.length = 512 ∧
  ∀ j, j < sd.size → sd.buffer.getD j 0 = bytes.getD (bytes.length - sd.size + j) 0

/-- A trailer with no header before it that ends at position 269 of the stream,
where the 8-bit count is 13. -/
def trailerAfterWrap : List Nat :=
  List.replicate 265 0 ++ sampleSignatures.FRAME_END

/-- What the first `q` bytes of a stream alone decide about the reading when the
cycle completes at position `q`: the bytes at offsets 6 and 7 from the start of
the last header before `q` when those four bytes are `FRAME_HEADER`, nothing
otherwise. No buffer content from before the call enters. -/
def streamReading (sig : Signatures) (bytes : List Nat) (q : Nat) : Option (Nat × Nat) :=
  let sd : serial_buffer_struct :=
    { buffer := bytes.take q, size := q, frame_start := lastHeaderStart sig bytes (q - 1) }
  if headerRecheck sig sd then
    some (sd.buffer.getD (sd.frame_start + SOMEONE) 0,
          sd.buffer.getD (sd.frame_start + TARGET_RANGE_0) 0)
  else none

/-- Buffer state as an earlier call might have left it: every entry `0xF1`, a
stale counter and a stale marker. -/
def staleBuffer : serial_buffer_struct :=
  { buffer := List.replicate 512 0xF1, size := 77, frame_start := 200 }

/-! ## `begin` and `getSomeone` -/

/-- C9: for 8-bit arguments `begin` stores `min(_min, 15)`, `min(_max, 15)` and
`min(_delay, 30)`; `begin(20, 3, 40)` stores 15, 3 and 30. -/
theorem begin_clamps (s : RD03) (_min _max _delay : Nat)
    (hmin : _min < 256) (hmax : _max < 256) (hdelay : _delay < 256) :
    (begin s _min _max _delay).1.min_detection_distance = min _min 15 ∧
    (begin s _min _max _delay).1.max_detection_distance = min _max 15 ∧
    (begin s _min _max _delay).1.disappear_delay = min _delay 30 ∧
    (begin s 20 3 40).1.min_detection_distance = 15 ∧
    (begin s 20 3 40).1.max_detection_distance = 3 ∧
    (begin s 20 3 40).1.disappear_delay = 30 := by
  have _ := hmin
  have _ := hmax
  have _ := hdelay
  refine ⟨?_, ?_, ?_, rfl, rfl, rfl⟩
  · simp only [begin]
    split_ifs <;> omega
  · simp only [begin]
    split_ifs <;> omega
  · simp only [begin]
    split_ifs <;> omega

/-- Witness of C9 at `begin(20, 3, 40)` on a freshly constructed object. -/
theorem begin_clamps_witness :
    (20 < 256 ∧ 3 < 256 ∧ 40 < 256) ∧
    (begin freshDevice 20 3 40).1.min_detection_distance = min 20 15 ∧
    (begin freshDevice 20 3 40).1.max_detection_distance = min 3 15 ∧
    (begin freshDevice 20 3 40).1.disappear_delay = min 40 30 ∧
    (begin freshDevice 20 3 40).1.min_detection_distance = 15 ∧
    (begin freshDevice 20 3 40).1.max_detection_distance = 3 ∧
    (begin freshDevice 20 3 40).1.disappear_delay = 30 :=
  ⟨by decide, begin_clamps freshDevice 20 3 40 (by decide) (by decide) (by decide)⟩

/-- C10: for 8-bit `someone`, `distance`, `min_detection_distance` and
`max_detection_distance`, `getSomeone()` is true exactly when `someone` is
nonzero and `min_detection_distance * 70 ≤ distance ≤ max_detection_distance * 70`
with the products taken over the integers and `distance` the raw byte. -/
theorem getSomeone_iff (s : RD03)
    (hs : s.someone < 256) (hd : s.distance < 256)
    (hmin : s.min_detection_distance < 256) (hmax : s.max_detection_distance < 256) :
    getSomeone s = true ↔
      s.someone ≠ 0 ∧
      (s.min_detection_distance : Int) * 70 ≤ (s.distance : Int) ∧
      (s.distance : Int) ≤ (s.max_detection_distance : Int) * 70 := by
  have _ := hs
  have _ := hd
  have _ := hmin
  have _ := hmax
  simp only [getSomeone, Bool.and_eq_true, decide_eq_true_eq]
  constructor
  · rintro ⟨⟨h1, h2⟩, h3⟩
    refine ⟨by omega, by omega, by omega⟩
  · rintro ⟨h1, h2, h3⟩
    refine ⟨⟨by omega, by omega⟩, by omega⟩

/-- Witness of C10: presence 1 at raw distance 100 inside the window
`1*70 .. 3*70`. -/
theorem getSomeone_iff_witness :
    (getSomeone sampleReading = true ↔
      (1 : Nat) ≠ 0 ∧ ((1 : Nat) : Int) * 70 ≤ ((100 : Nat) : Int) ∧
        ((100 : Nat) : Int) ≤ ((3 : Nat) : Int) * 70) :=
  getSomeone_iff sampleReading (by decide) (by decide) (by decide) (by decide)

end Rd03

namespace Rd03

/-! ## Basic facts about the loop -/

theorem feed_stopped (sig : Signatures) (s : RD03) (bs : List Nat)
    (h : s.start_reading = false) : feed sig s bs = (s, bs) := by
  cases bs with
  | nil => rfl
  | cons b bs => simp [feed, h]

theorem feed_cons_running (sig : Signatures) (s : RD03) (b : Nat) (bs : List Nat)
    (h : s.start_reading = true) : feed sig s (b :: bs) = feed sig (onByte sig s b) bs := by
  simp [feed, h]

/-- While the loop is still running after a first part of the stream, feeding more bytes continues
from the state reached. -/
theorem feed_append_running (sig : Signatures) (s : RD03) (pre rest : List Nat)
    (h : (feed sig s pre).1.start_reading = true) :
    feed sig s (pre ++ rest) = feed sig (feed sig s pre).1 rest := by
  induction pre generalizing s with
  | nil => rfl
  | cons b bs ih =>
    by_cases hs : s.start_reading = true
    · rw [feed_cons_running sig s b bs hs] at h ⊢
      rw [List.cons_append, feed_cons_running sig s b _ hs]
      exact ih _ h
    · have hs2 : s.start_reading = false := by simpa using hs
      rw [feed_stopped sig s _ hs2] at h
      simp [hs2] at h

/-- The loop over a schedule and the loop over the delivered bytes reach the
same object and leave the same bytes unconsumed. -/
theorem loop_eq_feed (sig : Signatures) (s : RD03) (schedule : List (Option Nat)) :
    (loop sig s schedule).1 = (feed sig s (delivered schedule)).1 ∧
    delivered (loop sig s schedule).2 = (feed sig s (delivered schedule)).2 := by
  induction schedule generalizing s with
  | nil => exact ⟨rfl, rfl⟩
  | cons e rest ih =>
    by_cases hs : s.start_reading = true
    · cases e with
      | none =>
        have h1 : loop sig s (none :: rest) = loop sig s rest := by simp [loop, hs, poll]
        have h2 : delivered (none :: rest) = delivered rest := by simp [delivered]
        rw [h1, h2]
        exact ih s
      | some b =>
        have h1 : loop sig s (some b :: rest) = loop sig (onByte sig s b) rest := by
          simp [loop, hs, poll]
        have h2 : delivered (some b :: rest) = b :: delivered rest := by simp [delivered]
        rw [h1, h2, feed_cons_running sig s b _ hs]
        exact ih _
    · have hs2 : s.start_reading = false := by simpa using hs
      have h1 : loop sig s (e :: rest) = (s, e :: rest) := by simp [loop, hs2]
      rw [h1, feed_stopped sig s _ hs2]
      exact ⟨rfl, rfl⟩

/-- A byte that does not complete the cycle leaves the reading alone and
advances the 8-bit counter by one. -/
theorem onByte_running (sig : Signatures) (s : RD03) (b : Nat)
    (h : (onByte sig s b).start_reading = true) :
    s.start_reading = true ∧
    (onByte sig s b).someone = s.someone ∧
    (onByte sig s b).distance = s.distance ∧
    (onByte sig s b).serial_data.size = (s.serial_data.size + 1) % 256 := by
  unfold onByte at h ⊢
  simp only at h ⊢
  split_ifs at h ⊢ <;> simp_all [appendByte]

end Rd03

namespace Rd03

/-- While the loop keeps running the reading is untouched, every byte is
consumed and the 8-bit counter has advanced by the number of bytes, modulo
256. -/
theorem feed_running (sig : Signatures) (s : RD03) (bs : List Nat)
    (hsz : s.serial_data.size < 256)
    (h : (feed sig s bs).1.start_reading = true) :
    s.start_reading = true ∧
    (feed sig s bs).1.someone = s.someone ∧
    (feed sig s bs).1.distance = s.distance ∧
    (feed sig s bs).1.serial_data.size = (s.serial_data.size + bs.length) % 256 ∧
    (feed sig s bs).2 = [] := by
  induction bs generalizing s with
  | nil =>
    have h0 : s.start_reading = true := h
    refine ⟨h0, rfl, rfl, ?_, rfl⟩
    show s.serial_data.size = (s.serial_data.size + 0) % 256
    omega
  | cons b bs ih =>
    by_cases hs : s.start_reading = true
    · rw [feed_cons_running sig s b bs hs] at h ⊢
      have hrun : (onByte sig s b).start_reading = true := by
        by_contra hc
        have hc2 : (onByte sig s b).start_reading = false := by simpa using hc
        rw [feed_stopped sig _ _ hc2] at h
        simp [hc2] at h
      obtain ⟨_, k2, k3, k4⟩ := onByte_running sig s b hrun
      obtain ⟨_, h2, h3, h4, h5⟩ := ih _ (by rw [k4]; omega) h
      refine ⟨hs, by rw [h2, k2], by rw [h3, k3], ?_, h5⟩
      rw [h4, k4, List.length_cons]
      omega
    · have hs2 : s.start_reading = false := by simpa using hs
      rw [feed_stopped sig s _ hs2] at h
      simp [hs2] at h

/-- A byte other than `0xF5` never ends the cycle. -/
theorem onByte_not_FE (sig : Signatures) (s : RD03) (b : Nat)
    (hb : b % 256 ≠ FE_LAST) :
    (onByte sig s b).start_reading = s.start_reading := by
  unfold onByte
  simp only
  split_ifs <;> simp_all

/-- A stream without the byte `0xF5` never ends the cycle. -/
theorem feed_no_FE (sig : Signatures) (s : RD03) (bs : List Nat)
    (hs : s.start_reading = true) (hb : ∀ b ∈ bs, b % 256 ≠ FE_LAST) :
    (feed sig s bs).1.start_reading = true := by
  induction bs generalizing s with
  | nil => exact hs
  | cons b bs ih =>
    rw [feed_cons_running sig s b bs hs]
    apply ih
    · rw [onByte_not_FE sig s b (hb b (List.mem_cons_self b bs))]
      exact hs
    · intro x hx
      exact hb x (List.mem_cons_of_mem b hx)

/-- The byte received when the 8-bit counter stands at 255 wraps it to zero and
cannot end the cycle, whatever the signatures of width four are. -/
theorem onByte_at_255 (sig : Signatures) (s : RD03) (b : Nat)
    (hH : sig.FRAME_HEADER.length = 4) (hE : sig.FRAME_END.length = 4)
    (hsz : s.serial_data.size = 255) :
    (onByte sig s b).start_reading = s.start_reading ∧
    (onByte sig s b).someone = s.someone ∧
    (onByte sig s b).distance = s.distance ∧
    (onByte sig s b).serial_data.size = 0 := by
  unfold onByte
  simp only
  have hT : trailerMatch sig (appendByte s.serial_data (b % 256)) = false := by
    simp [trailerMatch, appendByte, hsz, min_packet_size, fe_size, hH, hE]
  split_ifs <;> simp_all [appendByte]

end Rd03

namespace Rd03

/-! ## The buffer holds the stream -/

theorem memcmpEq_iff (buf : List Nat) (off : Nat) (pat : List Nat) (n : Nat) :
    memcmpEq buf off pat n = true ↔ ∀ i, i < n → buf.getD (off + i) 0 = pat.getD i 0 := by
  unfold memcmpEq
  rw [List.all_eq_true]
  constructor
  · intro h i hi
    have := h i (List.mem_range.mpr hi)
    exact beq_iff_eq.mp this
  · intro h i hi
    exact beq_iff_eq.mpr (h i (List.mem_range.mp hi))

theorem memcmpEq_append (l r : List Nat) (off : Nat) (pat : List Nat) (n : Nat)
    (h : off + n ≤ l.length) :
    memcmpEq (l ++ r) off pat n = memcmpEq l off pat n := by
  rw [Bool.eq_iff_iff, memcmpEq_iff, memcmpEq_iff]
  constructor
  · intro k i hi
    rw [← k i hi, List.getD_append l r 0 (off + i) (by omega)]
  · intro k i hi
    rw [← k i hi, List.getD_append l r 0 (off + i) (by omega)]

theorem headerEndsAt_append (sig : Signatures) (l r : List Nat) (p : Nat)
    (hp : p ≤ l.length) :
    headerEndsAt sig (l ++ r) p = headerEndsAt sig l p := by
  unfold headerEndsAt
  by_cases h4 : fh_size sig ≤ p
  · rw [memcmpEq_append l r _ _ _ (by omega)]
    simp [h4, hp]
    intro _
    omega
  · simp [h4]

theorem trailerEndsAt_append (sig : Signatures) (l r : List Nat) (p : Nat)
    (hp : p ≤ l.length) :
    trailerEndsAt sig (l ++ r) p = trailerEndsAt sig l p := by
  unfold trailerEndsAt
  by_cases h4 : fe_size sig ≤ p
  · rw [memcmpEq_append l r _ _ _ (by omega)]
    simp [h4, hp]
    intro _
    omega
  · simp [h4]

theorem lastHeaderStart_append (sig : Signatures) (l r : List Nat) (p : Nat)
    (hp : p ≤ l.length) :
    lastHeaderStart sig (l ++ r) p = lastHeaderStart sig l p := by
  induction p with
  | zero => rfl
  | succ p ih =>
    simp only [lastHeaderStart]
    rw [headerEndsAt_append sig l r (p + 1) hp, ih (by omega)]

theorem set_stream_front (l init : List Nat) (a : Nat) (h : l.length < init.length) :
    (l ++ init.drop l.length).set l.length a = (l ++ [a]) ++ init.drop (l.length + 1) := by
  rw [List.set_append_right _ _ (Nat.le_refl _), Nat.sub_self,
    List.drop_eq_getElem_cons h, List.set_cons_zero, List.append_assoc]
  rfl

end Rd03

namespace Rd03

theorem appendByte_afterBytes (sig : Signatures) (s0 : RD03) (l : List Nat) (a : Nat)
    (hlen : s0.serial_data.buffer.length = 512) (hl : l.length ≤ 254) :
    appendByte (afterBytes sig s0 l).serial_data a =
      { buffer := (l ++ [a]) ++ s0.serial_data.buffer.drop (l.length + 1),
        size := l.length + 1,
        frame_start := lastHeaderStart sig l l.length } := by
  simp only [appendByte, afterBytes]
  rw [set_stream_front l _ a (by omega)]
  have : (l.length + 1) % 256 = l.length + 1 := by omega
  rw [this]

theorem headerEndsAt_last (sig : Signatures) (bs : List Nat) (p : Nat)
    (hH : sig.FRAME_HEADER.length = 4) (hH3 : sig.FRAME_HEADER.getD 3 0 = FH_LAST)
    (h : headerEndsAt sig bs p = true) : bs.getD (p - 1) 0 = FH_LAST := by
  have hfh : fh_size sig = 4 := by simp [fh_size, hH]
  unfold headerEndsAt at h
  rw [hfh] at h
  simp only [Bool.and_eq_true, decide_eq_true_eq] at h
  obtain ⟨⟨h4, _⟩, hm⟩ := h
  have := (memcmpEq_iff _ _ _ _).mp hm 3 (by omega)
  rw [hH3] at this
  rw [← this]
  congr 1
  omega

theorem trailerEndsAt_last (sig : Signatures) (bs : List Nat) (p : Nat)
    (hE : sig.FRAME_END.length = 4) (hE3 : sig.FRAME_END.getD 3 0 = FE_LAST)
    (h : trailerEndsAt sig bs p = true) : bs.getD (p - 1) 0 = FE_LAST := by
  have hfe : fe_size sig = 4 := by simp [fe_size, hE]
  unfold trailerEndsAt at h
  rw [hfe] at h
  simp only [Bool.and_eq_true, decide_eq_true_eq] at h
  obtain ⟨⟨h4, _⟩, hm⟩ := h
  have := (memcmpEq_iff _ _ _ _).mp hm 3 (by omega)
  rw [hE3] at this
  rw [← this]
  congr 1
  omega

theorem getD_snoc_last (l : List Nat) (a : Nat) : (l ++ [a]).getD l.length 0 = a := by
  rw [List.getD_append_right l [a] 0 l.length (Nat.le_refl _), Nat.sub_self]
  rfl

/-- The condition of line 131 on the buffer is the header signature ending at
the current position of the stream. -/
theorem headerMatch_afterBytes (sig : Signatures) (s0 : RD03) (l : List Nat) (a : Nat)
    (hlen : s0.serial_data.buffer.length = 512) (hl : l.length ≤ 254) :
    headerMatch sig (appendByte (afterBytes sig s0 l).serial_data a) =
      headerEndsAt sig (l ++ [a]) (l.length + 1) := by
  rw [appendByte_afterBytes sig s0 l a hlen hl]
  unfold headerMatch headerEndsAt
  simp only
  by_cases h4 : fh_size sig ≤ l.length + 1
  · rw [memcmpEq_append (l ++ [a]) _ _ _ _ (by simp; omega)]
    simp [h4]
  · simp [h4]

/-- The comparison of line 142 on the buffer is the trailer signature ending at
the current position of the stream. -/
theorem trailerMatch_afterBytes (sig : Signatures) (s0 : RD03) (l : List Nat) (a : Nat)
    (hlen : s0.serial_data.buffer.length = 512) (hl : l.length ≤ 254)
    (hH : sig.FRAME_HEADER.length = 4) (hE : sig.FRAME_END.length = 4) :
    trailerMatch sig (appendByte (afterBytes sig s0 l).serial_data a) =
      (decide (13 ≤ l.length + 1) && trailerEndsAt sig (l ++ [a]) (l.length + 1)) := by
  have hfe : fe_size sig = 4 := by simp [fe_size, hE]
  have hmin : min_packet_size sig = 13 := by simp [min_packet_size, fe_size, hH, hE]
  rw [appendByte_afterBytes sig s0 l a hlen hl]
  unfold trailerMatch trailerEndsAt
  simp only [hfe, hmin]
  by_cases h13 : 13 ≤ l.length + 1
  · rw [memcmpEq_append (l ++ [a]) _ _ _ _ (by simp; omega)]
    have h4 : 4 ≤ l.length + 1 := by omega
    simp [h13, h4]
  · simp [h13]

end Rd03

namespace Rd03

theorem lastHeaderStart_snoc (sig : Signatures) (l : List Nat) (a : Nat) :
    lastHeaderStart sig (l ++ [a]) (l.length + 1) =
      if headerEndsAt sig (l ++ [a]) (l.length + 1) then (l.length + 1) - fh_size sig
      else lastHeaderStart sig l l.length := by
  simp only [lastHeaderStart]
  rw [lastHeaderStart_append sig l [a] l.length (Nat.le_refl _)]

/-- One byte that does not complete the cycle takes the object from the state
after a stream to the state after the stream extended by that byte. -/
theorem onByte_afterBytes (sig : Signatures) (s0 : RD03) (l : List Nat) (a : Nat)
    (hH : sig.FRAME_HEADER.length = 4) (hE : sig.FRAME_END.length = 4)
    (hH3 : sig.FRAME_HEADER.getD 3 0 = FH_LAST)
    (hlen : s0.serial_data.buffer.length = 512)
    (hl : l.length ≤ 254) (ha : a < 256)
    (hnc : 13 ≤ l.length + 1 → trailerEndsAt sig (l ++ [a]) (l.length + 1) = false) :
    onByte sig (afterBytes sig s0 l) a = afterBytes sig s0 (l ++ [a]) := by
  have hmod : a % 256 = a := Nat.mod_eq_of_lt ha
  have hfh : fh_size sig = 4 := by simp [fh_size, hH]
  have hHM := headerMatch_afterBytes sig s0 l a hlen hl
  have hTM : trailerMatch sig (appendByte (afterBytes sig s0 l).serial_data a) = false := by
    rw [trailerMatch_afterBytes sig s0 l a hlen hl hH hE]
    by_cases h13 : 13 ≤ l.length + 1
    · simp [hnc h13]
    · simp [h13]
  have hsd := appendByte_afterBytes sig s0 l a hlen hl
  have hlast : headerEndsAt sig (l ++ [a]) (l.length + 1) = true → a = FH_LAST := by
    intro h
    have := headerEndsAt_last sig _ _ hH hH3 h
    rw [Nat.add_sub_cancel, getD_snoc_last] at this
    exact this
  have hgoal : afterBytes sig s0 (l ++ [a]) =
      { afterBytes sig s0 l with
        serial_data :=
          { buffer := (l ++ [a]) ++ s0.serial_data.buffer.drop (l.length + 1),
            size := l.length + 1,
            frame_start :=
              if headerEndsAt sig (l ++ [a]) (l.length + 1) then (l.length + 1) - 4
              else lastHeaderStart sig l l.length } } := by
    simp only [afterBytes, List.length_append, List.length_singleton]
    rw [lastHeaderStart_snoc, hfh]
  rw [hgoal]
  unfold onByte
  simp only [hmod, hTM, hHM]
  by_cases hm : headerEndsAt sig (l ++ [a]) (l.length + 1) = true
  · have ha1 : a = FH_LAST := hlast hm
    have hmodsz : (l.length + 1 - 4) % 256 = l.length + 1 - 4 := by omega
    rw [hsd]
    rw [if_pos ha1]
    simp only [hm, if_true, hfh, hmodsz]
  · have hm2 : headerEndsAt sig (l ++ [a]) (l.length + 1) = false := by simpa using hm
    rw [hsd]
    simp only [hm2]
    split_ifs <;> simp_all

/-- The state of the loop after a stream shorter than 256 bytes in which no
trailer signature ends at a position from 13 on. -/
theorem feed_afterBytes (sig : Signatures) (s0 : RD03) (bs : List Nat)
    (hH : sig.FRAME_HEADER.length = 4) (hE : sig.FRAME_END.length = 4)
    (hH3 : sig.FRAME_HEADER.getD 3 0 = FH_LAST)
    (hlen : s0.serial_data.buffer.length = 512)
    (hl : bs.length ≤ 255) (hb : ∀ b ∈ bs, b < 256)
    (hnc : ∀ p, 13 ≤ p → p ≤ bs.length → trailerEndsAt sig bs p = false) :
    feed sig (afterBytes sig s0 []) bs = (afterBytes sig s0 bs, []) := by
  induction bs using List.reverseRecOn with
  | nil => rfl
  | append_singleton l a ih =>
    have hl2 : l.length ≤ 254 := by
      rw [List.length_append, List.length_singleton] at hl
      omega
    have ih2 := ih (by omega) (fun b hb2 => hb b (List.mem_append_left _ hb2))
      (fun p h13 hp => by
        have := hnc p h13 (by rw [List.length_append]; omega)
        rw [trailerEndsAt_append sig l [a] p hp] at this
        exact this)
    have hrun : (feed sig (afterBytes sig s0 []) l).1.start_reading = true := by
      rw [ih2]
      rfl
    rw [feed_append_running sig _ l [a] hrun, ih2]
    have hstep := onByte_afterBytes sig s0 l a hH hE hH3 hlen hl2
      (hb a (List.mem_append_right _ (List.mem_singleton_self a)))
      (fun h13 => hnc (l.length + 1) h13 (by rw [List.length_append, List.length_singleton]))
    show feed sig (afterBytes sig s0 l) [a] = _
    rw [feed_cons_running sig _ a [] rfl, hstep]
    rfl

end Rd03

namespace Rd03

/-! ## The completing byte -/

/-- What the byte `0xF5` does when the condition of line 142 holds: the cycle
ends and the counter and marker are cleared; the reading is overwritten when
the header re-check passes and kept otherwise. -/
theorem onByte_trailer_hit (sig : Signatures) (s : RD03) (b : Nat)
    (hc : b % 256 = FE_LAST)
    (hT : trailerMatch sig (appendByte s.serial_data (b % 256)) = true) :
    (onByte sig s b).start_reading = false ∧
    (onByte sig s b).serial_data.size = 0 ∧
    (onByte sig s b).serial_data.frame_start = 0 ∧
    (onByte sig s b).serial_data.buffer = (appendByte s.serial_data (b % 256)).buffer ∧
    (headerRecheck sig (appendByte s.serial_data (b % 256)) = true →
      (onByte sig s b).someone =
        (appendByte s.serial_data (b % 256)).buffer.getD
          ((appendByte s.serial_data (b % 256)).frame_start + SOMEONE) 0 ∧
      (onByte sig s b).distance =
        (appendByte s.serial_data (b % 256)).buffer.getD
          ((appendByte s.serial_data (b % 256)).frame_start + TARGET_RANGE_0) 0) ∧
    (headerRecheck sig (appendByte s.serial_data (b % 256)) = false →
      (onByte sig s b).someone = s.someone ∧ (onByte sig s b).distance = s.distance) := by
  have hne : ¬ (FE_LAST = FH_LAST) := by decide
  unfold onByte
  rw [hc] at hT
  simp only [hc, hne, if_false, if_true, hT]
  by_cases hr : headerRecheck sig (appendByte s.serial_data FE_LAST) = true
  · simp [hr]
  · have hr2 : headerRecheck sig (appendByte s.serial_data FE_LAST) = false := by simpa using hr
    simp [hr2]

/-- The cycle ends only on a byte `0xF5` for which the condition of line 142
holds. -/
theorem onByte_stops (sig : Signatures) (s : RD03) (b : Nat)
    (hs : s.start_reading = true) (h : (onByte sig s b).start_reading = false) :
    b % 256 = FE_LAST ∧ trailerMatch sig (appendByte s.serial_data (b % 256)) = true := by
  unfold onByte at h
  simp only at h
  split_ifs at h <;> simp_all

theorem feed_hit (sig : Signatures) (s : RD03) (pre post : List Nat) (c : Nat)
    (hrun : (feed sig s pre).1.start_reading = true)
    (hstop : (onByte sig (feed sig s pre).1 c).start_reading = false) :
    feed sig s (pre ++ c :: post) = (onByte sig (feed sig s pre).1 c, post) := by
  rw [feed_append_running sig s pre _ hrun, feed_cons_running sig _ c post hrun,
    feed_stopped sig _ post hstop]

/-- When the loop has ended, the stream splits at the completing byte: the loop
was still running before it, and the bytes after it were not consumed. -/
theorem feed_stops_split (sig : Signatures) (s : RD03) (bs : List Nat)
    (hs : s.start_reading = true) (h : (feed sig s bs).1.start_reading = false) :
    ∃ pre c, bs = pre ++ c :: (feed sig s bs).2 ∧
      (feed sig s pre).1.start_reading = true ∧
      (feed sig s bs).1 = onByte sig (feed sig s pre).1 c := by
  induction bs generalizing s with
  | nil =>
    have : (feed sig s []).1.start_reading = true := hs
    rw [this] at h
    cases h
  | cons b bs ih =>
    rw [feed_cons_running sig s b bs hs] at h ⊢
    by_cases hb : (onByte sig s b).start_reading = true
    · obtain ⟨pre, c, h1, h2, h3⟩ := ih _ hb h
      refine ⟨b :: pre, c, ?_, ?_, ?_⟩
      · rw [List.cons_append, ← h1]
      · rw [feed_cons_running sig s b pre hs]
        exact h2
      · rw [feed_cons_running sig s b pre hs]
        exact h3
    · have hb2 : (onByte sig s b).start_reading = false := by simpa using hb
      refine ⟨[], b, ?_, hs, ?_⟩
      · rw [feed_stopped sig _ bs hb2]
        rfl
      · rw [feed_stopped sig _ bs hb2]
        rfl

theorem delivered_backToBack (bs : List Nat) : delivered (backToBack bs) = bs := by
  induction bs with
  | nil => rfl
  | cons b bs ih =>
    show delivered (some b :: backToBack bs) = b :: bs
    simp only [delivered, List.filterMap_cons, id] at ih ⊢
    rw [ih]

theorem readEntry_eq_afterBytes (sig : Signatures) (s : RD03) :
    readEntry s = afterBytes sig s [] := by
  simp [readEntry, afterBytes, lastHeaderStart]

theorem read_fst (sig : Signatures) (s : RD03) (schedule : List (Option Nat)) :
    (read sig s schedule).1 = (feed sig (readEntry s) (delivered schedule)).1 :=
  (loop_eq_feed sig (readEntry s) schedule).1

theorem read_snd (sig : Signatures) (s : RD03) (schedule : List (Option Nat)) :
    delivered (read sig s schedule).2 = (feed sig (readEntry s) (delivered schedule)).2 :=
  (loop_eq_feed sig (readEntry s) schedule).2

end Rd03

namespace Rd03

theorem loop_backToBack (sig : Signatures) (s : RD03) (bs : List Nat) :
    loop sig s (backToBack bs) = ((feed sig s bs).1, backToBack (feed sig s bs).2) := by
  induction bs generalizing s with
  | nil => rfl
  | cons b bs ih =>
    by_cases hs : s.start_reading = true
    · rw [feed_cons_running sig s b bs hs]
      show loop sig s (some b :: backToBack bs) = _
      simp only [loop, hs, if_true, poll]
      exact ih _
    · have hs2 : s.start_reading = false := by simpa using hs
      rw [feed_stopped sig s _ hs2]
      show loop sig s (some b :: backToBack bs) = _
      simp [loop, hs2, backToBack]

theorem read_backToBack (sig : Signatures) (s : RD03) (bs : List Nat) :
    read sig s (backToBack bs) =
      ((feed sig (readEntry s) bs).1, backToBack (feed sig (readEntry s) bs).2) :=
  loop_backToBack sig (readEntry s) bs

theorem read_backToBack_fst (sig : Signatures) (s : RD03) (bs : List Nat) :
    (read sig s (backToBack bs)).1 = (feed sig (readEntry s) bs).1 := by
  rw [read_backToBack]

theorem read_backToBack_snd (sig : Signatures) (s : RD03) (bs : List Nat) :
    (read sig s (backToBack bs)).2 = backToBack (feed sig (readEntry s) bs).2 := by
  rw [read_backToBack]

/-! ## Claims about the poll loop -/

/-- C8: arrival timing does not matter. Two poll schedules that deliver the same
byte sequence (idle polls interleaved in any way, or none) make `read()` consume
the same number of bytes and end with the same `someone`, `distance`, `size`
and `frame_start`; indeed with the same object and the same bytes left over. -/
theorem read_schedule_independent (sig : Signatures) (s : RD03)
    (sch1 sch2 : List (Option Nat)) (h : delivered sch1 = delivered sch2) :
    bytesConsumed sig s sch1 = bytesConsumed sig s sch2 ∧
    (read sig s sch1).1.someone = (read sig s sch2).1.someone ∧
    (read sig s sch1).1.distance = (read sig s sch2).1.distance ∧
    (read sig s sch1).1.serial_data.size = (read sig s sch2).1.serial_data.size ∧
    (read sig s sch1).1.serial_data.frame_start = (read sig s sch2).1.serial_data.frame_start ∧
    (read sig s sch1).1 = (read sig s sch2).1 ∧
    delivered (read sig s sch1).2 = delivered (read sig s sch2).2 := by
  have h1 : (read sig s sch1).1 = (read sig s sch2).1 := by
    rw [read_fst, read_fst, h]
  have h2 : delivered (read sig s sch1).2 = delivered (read sig s sch2).2 := by
    rw [read_snd, read_snd, h]
  refine ⟨?_, ?_, ?_, ?_, ?_, h1, h2⟩
  · unfold bytesConsumed
    rw [h, h2]
  all_goals rw [h1]

/-- C7 as the code has it: there is no overflow signal and no reset. Whenever
`read()` is still running after a schedule (no frame completed), however many
bytes were delivered, every byte was consumed, the 8-bit `size` is the number of
delivered bytes modulo 256, and `someone` and `distance` are untouched. -/
theorem read_never_overflows (sig : Signatures) (s : RD03) (sch : List (Option Nat))
    (h : (read sig s sch).1.start_reading = true) :
    (read sig s sch).1.serial_data.size = (delivered sch).length % 256 ∧
    delivered (read sig s sch).2 = [] ∧
    (read sig s sch).1.someone = s.someone ∧
    (read sig s sch).1.distance = s.distance := by
  rw [read_fst] at h
  have hsz : (readEntry s).serial_data.size < 256 := by
    show 0 < 256
    decide
  obtain ⟨_, h2, h3, h4, h5⟩ := feed_running sig (readEntry s) (delivered sch) hsz h
  rw [read_fst, read_snd]
  refine ⟨?_, h5, h2, h3⟩
  rw [h4]
  show (0 + (delivered sch).length) % 256 = _
  rw [Nat.zero_add]

end Rd03

namespace Rd03

/-- C6: the reading is updated atomically or not at all. When `read()` returns,
the delivered stream splits at a completing byte `0xF5` for which the condition
of line 142 held, and either the header re-check at `frame_start` passed and
both `someone` and `distance` were read from that same buffer at offsets 6 and
7 from that same `frame_start`, or the re-check failed and both still hold the
values from before the call. -/
theorem reading_updated_atomically (sig : Signatures) (s : RD03)
    (sch : List (Option Nat)) (hret : (read sig s sch).1.start_reading = false) :
    ∃ pre c,
      delivered sch = pre ++ c :: delivered (read sig s sch).2 ∧
      (read sig s (backToBack pre)).1.start_reading = true ∧
      c % 256 = FE_LAST ∧
      trailerMatch sig (bufferAtByte sig s pre c) = true ∧
      ((headerRecheck sig (bufferAtByte sig s pre c) = true ∧
          (read sig s sch).1.someone =
            (bufferAtByte sig s pre c).buffer.getD
              ((bufferAtByte sig s pre c).frame_start + SOMEONE) 0 ∧
          (read sig s sch).1.distance =
            (bufferAtByte sig s pre c).buffer.getD
              ((bufferAtByte sig s pre c).frame_start + TARGET_RANGE_0) 0) ∨
        (headerRecheck sig (bufferAtByte sig s pre c) = false ∧
          (read sig s sch).1.someone = s.someone ∧
          (read sig s sch).1.distance = s.distance)) := by
  rw [read_fst] at hret
  obtain ⟨pre, c, h1, h2, h3⟩ := feed_stops_split sig (readEntry s) (delivered sch) rfl hret
  have hstop : (onByte sig (feed sig (readEntry s) pre).1 c).start_reading = false := by
    rw [← h3]
    exact hret
  obtain ⟨hc, hT⟩ := onByte_stops sig _ c h2 hstop
  obtain ⟨_, _, _, _, hyes, hno⟩ := onByte_trailer_hit sig _ c hc hT
  have hsz : (readEntry s).serial_data.size < 256 := by
    show 0 < 256
    decide
  obtain ⟨_, k2, k3, _, _⟩ := feed_running sig (readEntry s) pre hsz h2
  have hbuf : bufferAtByte sig s pre c =
      appendByte (feed sig (readEntry s) pre).1.serial_data (c % 256) := by
    unfold bufferAtByte
    rw [read_backToBack]
  refine ⟨pre, c, ?_, ?_, hc, ?_, ?_⟩
  · rw [read_snd]
    exact h1
  · rw [read_backToBack]
    exact h2
  · rw [hbuf]
    exact hT
  · rw [hbuf, read_fst, h3]
    by_cases hr : headerRecheck sig
        (appendByte (feed sig (readEntry s) pre).1.serial_data (c % 256)) = true
    · exact Or.inl ⟨hr, hyes hr⟩
    · have hr2 : headerRecheck sig
          (appendByte (feed sig (readEntry s) pre).1.serial_data (c % 256)) = false := by
        simpa using hr
      obtain ⟨n1, n2⟩ := hno hr2
      refine Or.inr ⟨hr2, ?_, ?_⟩
      · rw [n1, k2]
        rfl
      · rw [n2, k3]
        rfl

/-- C5 as the code has it: when the trailer signature matches at a byte (the
condition of line 142, with at least 13 bytes counted) but the four bytes at
`frame_start` are not `FRAME_HEADER`, the match is discarded in that `someone`
and `distance` keep the values from before the call, yet `read()` returns on
that very byte: `start_reading` is cleared, `size` and `frame_start` are reset
to zero and the bytes that follow are not consumed. -/
theorem malformed_frame_returns (sig : Signatures) (s : RD03)
    (pre : List Nat) (c : Nat) (post : List Nat)
    (hrun : (read sig s (backToBack pre)).1.start_reading = true)
    (hc : c % 256 = FE_LAST)
    (hT : trailerMatch sig (bufferAtByte sig s pre c) = true)
    (hR : headerRecheck sig (bufferAtByte sig s pre c) = false) :
    (read sig s (backToBack (pre ++ c :: post))).2 = backToBack post ∧
    (read sig s (backToBack (pre ++ c :: post))).1.start_reading = false ∧
    (read sig s (backToBack (pre ++ c :: post))).1.someone = s.someone ∧
    (read sig s (backToBack (pre ++ c :: post))).1.distance = s.distance ∧
    (read sig s (backToBack (pre ++ c :: post))).1.serial_data.size = 0 ∧
    (read sig s (backToBack (pre ++ c :: post))).1.serial_data.frame_start = 0 := by
  have hbuf : bufferAtByte sig s pre c =
      appendByte (feed sig (readEntry s) pre).1.serial_data (c % 256) := by
    unfold bufferAtByte
    rw [read_backToBack]
  rw [hbuf] at hT hR
  rw [read_backToBack] at hrun
  have hrun2 : (feed sig (readEntry s) pre).1.start_reading = true := hrun
  obtain ⟨g1, g2, g3, _, _, hno⟩ := onByte_trailer_hit sig _ c hc hT
  obtain ⟨n1, n2⟩ := hno hR
  have hsz : (readEntry s).serial_data.size < 256 := by
    show 0 < 256
    decide
  obtain ⟨_, k2, k3, _, _⟩ := feed_running sig (readEntry s) pre hsz hrun2
  rw [read_backToBack, feed_hit sig (readEntry s) pre post c hrun2 g1]
  refine ⟨rfl, g1, ?_, ?_, g2, g3⟩
  · show (onByte sig (feed sig (readEntry s) pre).1 c).someone = s.someone
    rw [n1, k2]
    rfl
  · show (onByte sig (feed sig (readEntry s) pre).1 c).distance = s.distance
    rw [n2, k3]
    rfl

end Rd03

namespace Rd03

/-! ## Completion on a stream shorter than 256 bytes -/

theorem lastHeaderStart_no_header (sig : Signatures) (bs : List Nat) (p : Nat)
    (h : headerEndsAt sig bs (p + 1) = false) :
    lastHeaderStart sig bs (p + 1) = lastHeaderStart sig bs p := by
  simp [lastHeaderStart, h]

/-- The marker after the last header signature of a stream. -/
theorem lastHeaderStart_of_last (sig : Signatures) (bs : List Nat) (p2 d : Nat)
    (h2 : headerEndsAt sig bs p2 = true)
    (hno : ∀ p, p2 < p → p ≤ p2 + d → headerEndsAt sig bs p = false) :
    lastHeaderStart sig bs (p2 + d) = p2 - fh_size sig := by
  induction d with
  | zero =>
    cases p2 with
    | zero =>
      show 0 = 0 - fh_size sig
      omega
    | succ p =>
      show lastHeaderStart sig bs (p + 1) = _
      simp [lastHeaderStart, h2]
  | succ d ih =>
    have hlast := hno (p2 + (d + 1)) (by omega) (Nat.le_refl _)
    rw [← Nat.add_assoc] at hlast ⊢
    rw [lastHeaderStart_no_header sig bs _ hlast]
    exact ih (fun p hp1 hp2 => hno p hp1 (by omega))

/-- The header re-check passes at the start of a header signature that lies in
the part of the buffer holding the stream. -/
theorem headerRecheck_of_headerEndsAt (sig : Signatures) (l rest : List Nat)
    (sz fs p2 : Nat) (hH : sig.FRAME_HEADER.length = 4)
    (h2 : headerEndsAt sig l p2 = true) (hfs : fs = p2 - 4) :
    headerRecheck sig { buffer := l ++ rest, size := sz, frame_start := fs } = true := by
  have hfh : fh_size sig = 4 := by simp [fh_size, hH]
  unfold headerEndsAt at h2
  rw [hfh] at h2
  simp only [Bool.and_eq_true, decide_eq_true_eq] at h2
  obtain ⟨⟨h4, hp⟩, hm⟩ := h2
  have hm2 := (memcmpEq_iff _ _ _ _).mp hm
  have e0 := hm2 0 (by omega)
  have e1 := hm2 1 (by omega)
  have e2 := hm2 2 (by omega)
  have e3 := hm2 3 (by omega)
  unfold headerRecheck
  simp only [FH_0, FH_1, FH_2, FH_3, hfs, Bool.and_eq_true, beq_iff_eq]
  rw [List.getD_append l rest 0 _ (by omega), List.getD_append l rest 0 _ (by omega),
    List.getD_append l rest 0 _ (by omega), List.getD_append l rest 0 _ (by omega)]
  exact ⟨⟨⟨e0, e1⟩, e2⟩, e3⟩

/-- A stream shorter than 256 bytes whose first trailer signature at a position
from 13 on ends with the byte `c`: `read()` returns on `c`, leaves the bytes
after it, and the reading is decided by the header re-check on the buffer that
holds the stream. -/
theorem feed_complete (sig : Signatures) (s : RD03) (l : List Nat) (c : Nat)
    (post : List Nat)
    (hH : sig.FRAME_HEADER.length = 4) (hE : sig.FRAME_END.length = 4)
    (hH3 : sig.FRAME_HEADER.getD 3 0 = FH_LAST) (hE3 : sig.FRAME_END.getD 3 0 = FE_LAST)
    (hlen : s.serial_data.buffer.length = 512)
    (hl : l.length ≤ 254) (hb : ∀ b ∈ l, b < 256)
    (h13 : 13 ≤ l.length + 1)
    (hT : trailerEndsAt sig (l ++ [c]) (l.length + 1) = true)
    (hfirst : ∀ p, 13 ≤ p → p ≤ l.length → trailerEndsAt sig l p = false) :
    feed sig (readEntry s) (l ++ c :: post) = (onByte sig (afterBytes sig s l) c, post) ∧
    c = FE_LAST ∧
    trailerMatch sig (appendByte (afterBytes sig s l).serial_data (c % 256)) = true ∧
    appendByte (afterBytes sig s l).serial_data (c % 256) =
      { buffer := (l ++ [c]) ++ s.serial_data.buffer.drop (l.length + 1),
        size := l.length + 1,
        frame_start := lastHeaderStart sig l l.length } := by
  have hc : c = FE_LAST := by
    have := trailerEndsAt_last sig _ _ hE hE3 hT
    rw [Nat.add_sub_cancel, getD_snoc_last] at this
    exact this
  have hcmod : c % 256 = c := by
    rw [hc]
    decide
  have hpre := feed_afterBytes sig s l hH hE hH3 hlen (by omega) hb hfirst
  rw [← readEntry_eq_afterBytes sig s] at hpre
  have hrun : (feed sig (readEntry s) l).1.start_reading = true := by
    rw [hpre]
    rfl
  have hTM : trailerMatch sig (appendByte (afterBytes sig s l).serial_data (c % 256)) = true := by
    rw [hcmod, trailerMatch_afterBytes sig s l c hlen hl hH hE, hT]
    simp [h13]
  have hstop : (onByte sig (feed sig (readEntry s) l).1 c).start_reading = false := by
    rw [hpre]
    exact (onByte_trailer_hit sig (afterBytes sig s l) c (by rw [hcmod]; exact hc) hTM).1
  refine ⟨?_, hc, hTM, ?_⟩
  · rw [feed_hit sig (readEntry s) l post c hrun hstop, hpre]
  · rw [hcmod]
    exact appendByte_afterBytes sig s l c hlen hl

end Rd03

namespace Rd03

/-! ## The example frame -/

theorem memcmpEq_four (buf : List Nat) (off : Nat) (pat : List Nat) :
    memcmpEq buf off pat 4 =
      ((buf.getD off 0 == pat.getD 0 0) && (buf.getD (off + 1) 0 == pat.getD 1 0) &&
       (buf.getD (off + 2) 0 == pat.getD 2 0) && (buf.getD (off + 3) 0 == pat.getD 3 0)) := by
  simp [memcmpEq, List.range, List.range.loop, Bool.and_assoc]

theorem read_example_frame_aux (sig : Signatures) (s : RD03)
    (h0 h1 h2 e0 e1 e2 len0 len1 : Nat) (post : List Nat)
    (hH : sig.FRAME_HEADER = [h0, h1, h2, 0xF1])
    (hE : sig.FRAME_END = [e0, e1, e2, 0xF5])
    (hbytes : h0 < 256 ∧ h1 < 256 ∧ h2 < 256 ∧ e0 < 256 ∧ e1 < 256 ∧ e2 < 256 ∧
      len0 < 256 ∧ len1 < 256)
    (hF1 : h0 ≠ 0xF1 ∧ h1 ≠ 0xF1 ∧ h2 ≠ 0xF1 ∧ e0 ≠ 0xF1 ∧ e1 ≠ 0xF1 ∧ e2 ≠ 0xF1)
    (hlen : s.serial_data.buffer.length = 512) :
    (read sig s (backToBack [h0, h1, h2, 0xF1, len0, len1, 1, 5, 0, e0, e1, e2])).1.start_reading
      = true ∧
    (read sig s (backToBack
      ([h0, h1, h2, 0xF1, len0, len1, 1, 5, 0, e0, e1, e2, 0xF5] ++ post))).2 = backToBack post ∧
    (read sig s (backToBack
      ([h0, h1, h2, 0xF1, len0, len1, 1, 5, 0, e0, e1, e2, 0xF5] ++ post))).1.start_reading
      = false ∧
    (read sig s (backToBack
      ([h0, h1, h2, 0xF1, len0, len1, 1, 5, 0, e0, e1, e2, 0xF5] ++ post))).1.someone = 1 ∧
    (read sig s (backToBack
      ([h0, h1, h2, 0xF1, len0, len1, 1, 5, 0, e0, e1, e2, 0xF5] ++ post))).1.distance = 5 := by
  obtain ⟨b0, b1, b2, b3, b4, b5, b6, b7⟩ := hbytes
  obtain ⟨f0, f1, f2, f3, f4, f5⟩ := hF1
  have hHl : sig.FRAME_HEADER.length = 4 := by rw [hH]; rfl
  have hEl : sig.FRAME_END.length = 4 := by rw [hE]; rfl
  have hH3 : sig.FRAME_HEADER.getD 3 0 = FH_LAST := by rw [hH]; rfl
  have hE3 : sig.FRAME_END.getD 3 0 = FE_LAST := by rw [hE]; rfl
  have hfh : fh_size sig = 4 := by simp [fh_size, hHl]
  have hfe : fe_size sig = 4 := by simp [fe_size, hEl]
  have hb : ∀ b ∈ [h0, h1, h2, 0xF1, len0, len1, 1, 5, 0, e0, e1, e2], b < 256 := by
    intro b hb
    simp only [List.mem_cons, List.mem_singleton, List.not_mem_nil, or_false] at hb
    omega
  have hpre := feed_afterBytes sig s [h0, h1, h2, 0xF1, len0, len1, 1, 5, 0, e0, e1, e2]
    hHl hEl hH3 hlen (by simp) hb (fun p h13 hp => by simp at hp; omega)
  have hT : trailerEndsAt sig ([h0, h1, h2, 0xF1, len0, len1, 1, 5, 0, e0, e1, e2] ++ [0xF5])
      ([h0, h1, h2, 0xF1, len0, len1, 1, 5, 0, e0, e1, e2].length + 1) = true := by
    simp [trailerEndsAt, hfe, memcmpEq_four, hE]
  have hfs : lastHeaderStart sig [h0, h1, h2, 0xF1, len0, len1, 1, 5, 0, e0, e1, e2]
      [h0, h1, h2, 0xF1, len0, len1, 1, 5, 0, e0, e1, e2].length = 0 := by
    simp [lastHeaderStart, headerEndsAt, hfh, memcmpEq_four, hH, f1, f2, f3, f4, f5]
    split_ifs <;> omega
  have hrun12 : (read sig s (backToBack
      [h0, h1, h2, 0xF1, len0, len1, 1, 5, 0, e0, e1, e2])).1.start_reading = true := by
    rw [read_backToBack, readEntry_eq_afterBytes sig s, hpre]
    rfl
  obtain ⟨hfeed, hc, hTM, hsd⟩ := feed_complete sig s
    [h0, h1, h2, 0xF1, len0, len1, 1, 5, 0, e0, e1, e2] 0xF5 post
    hHl hEl hH3 hE3 hlen (by simp) hb (by simp) hT (fun p h13 hp => by simp at hp; omega)
  rw [hfs] at hsd
  obtain ⟨g1, _, _, _, hyes, _⟩ := onByte_trailer_hit sig
    (afterBytes sig s [h0, h1, h2, 0xF1, len0, len1, 1, 5, 0, e0, e1, e2]) 0xF5 rfl hTM
  have hR : headerRecheck sig (appendByte (afterBytes sig s
      [h0, h1, h2, 0xF1, len0, len1, 1, 5, 0, e0, e1, e2]).serial_data (0xF5 % 256)) = true := by
    rw [hsd]
    simp [headerRecheck, FH_0, FH_1, FH_2, FH_3, hH]
  obtain ⟨y1, y2⟩ := hyes hR
  rw [hsd] at y1 y2
  have hread : read sig s (backToBack
      ([h0, h1, h2, 0xF1, len0, len1, 1, 5, 0, e0, e1, e2, 0xF5] ++ post)) =
      (onByte sig (afterBytes sig s [h0, h1, h2, 0xF1, len0, len1, 1, 5, 0, e0, e1, e2]) 0xF5,
        backToBack post) := by
    rw [read_backToBack]
    have : [h0, h1, h2, 0xF1, len0, len1, 1, 5, 0, e0, e1, e2, 0xF5] ++ post =
        [h0, h1, h2, 0xF1, len0, len1, 1, 5, 0, e0, e1, e2] ++ 0xF5 :: post := by simp
    rw [this, hfeed]
  rw [hread]
  refine ⟨hrun12, rfl, g1, ?_, ?_⟩
  · rw [y1]
    simp [SOMEONE]
  · rw [y2]
    simp [TARGET_RANGE_0]

end Rd03

namespace Rd03

/-! ## Last header wins -/

theorem last_header_wins_aux (sig : Signatures) (s : RD03) (l : List Nat) (c : Nat)
    (post : List Nat) (p2 : Nat)
    (hH : sig.FRAME_HEADER.length = 4) (hE : sig.FRAME_END.length = 4)
    (hH3 : sig.FRAME_HEADER.getD 3 0 = FH_LAST) (hE3 : sig.FRAME_END.getD 3 0 = FE_LAST)
    (hlen : s.serial_data.buffer.length = 512)
    (hl : l.length ≤ 254) (hb : ∀ b ∈ l, b < 256)
    (h13 : 13 ≤ l.length + 1)
    (hp2 : headerEndsAt sig l p2 = true)
    (hno : ∀ p, p2 < p → p ≤ l.length → headerEndsAt sig l p = false)
    (hT : trailerEndsAt sig (l ++ [c]) (l.length + 1) = true)
    (hfirst : ∀ p, 13 ≤ p → p ≤ l.length → trailerEndsAt sig l p = false) :
    (feed sig (readEntry s) (l ++ c :: post)).2 = post ∧
    (feed sig (readEntry s) (l ++ c :: post)).1.start_reading = false ∧
    (feed sig (readEntry s) (l ++ c :: post)).1.someone =
      ((l ++ [c]) ++ s.serial_data.buffer.drop (l.length + 1)).getD (p2 - 4 + SOMEONE) 0 ∧
    (feed sig (readEntry s) (l ++ c :: post)).1.distance =
      ((l ++ [c]) ++ s.serial_data.buffer.drop (l.length + 1)).getD
        (p2 - 4 + TARGET_RANGE_0) 0 ∧
    bufferAtByte sig s l c =
      { buffer := (l ++ [c]) ++ s.serial_data.buffer.drop (l.length + 1),
        size := l.length + 1,
        frame_start := p2 - 4 } := by
  have hfh : fh_size sig = 4 := by simp [fh_size, hH]
  have hp2le : p2 ≤ l.length := by
    unfold headerEndsAt at hp2
    simp only [Bool.and_eq_true, decide_eq_true_eq] at hp2
    exact hp2.1.2
  obtain ⟨hfeed, hc, hTM, hsd⟩ :=
    feed_complete sig s l c post hH hE hH3 hE3 hlen hl hb h13 hT hfirst
  have hfs : lastHeaderStart sig l l.length = p2 - 4 := by
    have := lastHeaderStart_of_last sig l p2 (l.length - p2) hp2
      (fun p h1 h2 => hno p h1 (by omega))
    rw [hfh] at this
    rw [← this]
    congr 1
    omega
  rw [hfs] at hsd
  have hcmod : c % 256 = FE_LAST := by
    rw [hc]
    rfl
  obtain ⟨g1, _, _, _, hyes, _⟩ := onByte_trailer_hit sig (afterBytes sig s l) c hcmod hTM
  have hR : headerRecheck sig (appendByte (afterBytes sig s l).serial_data (c % 256)) = true := by
    rw [hsd, List.append_assoc]
    exact headerRecheck_of_headerEndsAt sig l _ _ _ p2 hH hp2 rfl
  obtain ⟨y1, y2⟩ := hyes hR
  have hbuf : bufferAtByte sig s l c = appendByte (afterBytes sig s l).serial_data (c % 256) := by
    have hpre := feed_afterBytes sig s l hH hE hH3 hlen (by omega) hb hfirst
    rw [← readEntry_eq_afterBytes sig s] at hpre
    unfold bufferAtByte
    rw [read_backToBack_fst, hpre]
  rw [hsd] at y1 y2 hbuf
  rw [hfeed]
  exact ⟨rfl, g1, y1, y2, hbuf⟩

end Rd03

namespace Rd03

theorem stream_split (bs : List Nat) (q : Nat) (h1 : 1 ≤ q) (hq : q ≤ bs.length) :
    bs = bs.take (q - 1) ++ bs.getD (q - 1) 0 :: bs.drop q ∧
    bs.take (q - 1) ++ [bs.getD (q - 1) 0] = bs.take q ∧
    (bs.take (q - 1)).length = q - 1 := by
  obtain ⟨k, rfl⟩ : ∃ k, q = k + 1 := ⟨q - 1, by omega⟩
  have hk : k < bs.length := by omega
  rw [Nat.add_sub_cancel, List.getD_eq_getElem bs 0 hk]
  refine ⟨?_, ?_, ?_⟩
  · conv_lhs => rw [← List.take_append_drop k bs, List.drop_eq_getElem_cons hk]
  · rw [← List.take_concat_get bs k hk, List.concat_eq_append]
  · rw [List.length_take]
    omega

/-- A stream whose first trailer signature (from position 13 on) ends at
position `q ≤ 255`, with `p2` the end of the last header signature before `q`:
`read()` returns on byte `q` and reads the two fields at offsets 6 and 7 from
`p2 - 4`. -/
theorem read_takes_last_header (sig : Signatures) (s : RD03) (bs : List Nat) (p2 q : Nat)
    (hH : sig.FRAME_HEADER.length = 4) (hE : sig.FRAME_END.length = 4)
    (hH3 : sig.FRAME_HEADER.getD 3 0 = FH_LAST) (hE3 : sig.FRAME_END.getD 3 0 = FE_LAST)
    (hlen : s.serial_data.buffer.length = 512)
    (hb : ∀ b ∈ bs, b < 256)
    (hq : q ≤ 255) (h13 : 13 ≤ q)
    (hp2 : headerEndsAt sig bs p2 = true) (h2q : p2 < q)
    (hno : ∀ p, p2 < p → p < q → headerEndsAt sig bs p = false)
    (hT : trailerEndsAt sig bs q = true)
    (hfirst : ∀ p, 13 ≤ p → p < q → trailerEndsAt sig bs p = false) :
    (read sig s (backToBack bs)).2 = backToBack (bs.drop q) ∧
    (read sig s (backToBack bs)).1.start_reading = false ∧
    (read sig s (backToBack bs)).1.someone =
      (bs.take q ++ s.serial_data.buffer.drop q).getD (p2 - 4 + SOMEONE) 0 ∧
    (read sig s (backToBack bs)).1.distance =
      (bs.take q ++ s.serial_data.buffer.drop q).getD (p2 - 4 + TARGET_RANGE_0) 0 ∧
    (p2 + 4 ≤ q →
      (read sig s (backToBack bs)).1.someone = bs.getD (p2 + 2) 0 ∧
      (read sig s (backToBack bs)).1.distance = bs.getD (p2 + 3) 0) ∧
    bufferAtByte sig s (bs.take (q - 1)) (bs.getD (q - 1) 0) =
      { buffer := bs.take q ++ s.serial_data.buffer.drop q, size := q, frame_start := p2 - 4 } := by
  have hqlen : q ≤ bs.length := by
    unfold trailerEndsAt at hT
    simp only [Bool.and_eq_true, decide_eq_true_eq] at hT
    exact hT.1.2
  have hfh : fh_size sig = 4 := by simp [fh_size, hH]
  have hp2ge : 4 ≤ p2 := by
    unfold headerEndsAt at hp2
    simp only [Bool.and_eq_true, decide_eq_true_eq] at hp2
    rw [hfh] at hp2
    exact hp2.1.1
  obtain ⟨hsplit, htake, hlenl⟩ := stream_split bs q (by omega) hqlen
  have hq1 : (bs.take (q - 1)).length + 1 = q := by omega
  have hsplit2 : bs = (bs.take (q - 1) ++ [bs.getD (q - 1) 0]) ++ bs.drop q := by
    rw [List.append_assoc]
    exact hsplit
  have haux := last_header_wins_aux sig s (bs.take (q - 1)) (bs.getD (q - 1) 0) (bs.drop q) p2
    hH hE hH3 hE3 hlen (by omega) (fun b hb2 => hb b (List.mem_of_mem_take hb2)) (by omega)
    (by
      rw [← headerEndsAt_append sig (bs.take (q - 1)) (bs.getD (q - 1) 0 :: bs.drop q) p2
        (by omega), ← hsplit]
      exact hp2)
    (fun p h1 h2 => by
      rw [← headerEndsAt_append sig (bs.take (q - 1)) (bs.getD (q - 1) 0 :: bs.drop q) p
        (by omega), ← hsplit]
      exact hno p h1 (by omega))
    (by
      rw [← trailerEndsAt_append sig _ (bs.drop q) _ (by simp), ← hsplit2, hq1]
      exact hT)
    (fun p h1 h2 => by
      rw [← trailerEndsAt_append sig (bs.take (q - 1)) (bs.getD (q - 1) 0 :: bs.drop q) p
        (by omega), ← hsplit]
      exact hfirst p h1 (by omega))
  rw [← hsplit, htake, hq1] at haux
  obtain ⟨a1, a2, a3, a4, a5⟩ := haux
  rw [read_backToBack]
  refine ⟨by rw [a1], a2, a3, a4, ?_, a5⟩
  intro h4
  have hlt : (bs.take q).length = q := by
    rw [List.length_take]
    omega
  constructor
  · rw [a3, List.getD_append _ _ 0 _ (by rw [hlt]; simp only [SOMEONE]; omega)]
    have : p2 - 4 + SOMEONE = p2 + 2 := by
      simp only [SOMEONE]
      omega
    rw [this, List.getD_eq_getElem _ 0 (by rw [hlt]; omega), List.getElem_take]
    exact (List.getD_eq_getElem bs 0 (by omega)).symm
  · rw [a4, List.getD_append _ _ 0 _ (by rw [hlt]; simp only [TARGET_RANGE_0]; omega)]
    have : p2 - 4 + TARGET_RANGE_0 = p2 + 3 := by
      simp only [TARGET_RANGE_0]
      omega
    rw [this, List.getD_eq_getElem _ 0 (by rw [hlt]; omega), List.getElem_take]
    exact (List.getD_eq_getElem bs 0 (by omega)).symm

/-- Last header wins while the first completing trailer match lies within the
range of the 8-bit counter. If the header
signature ends at positions `p1 < p2`, no header signature ends between `p2`
and `q`, and `q ≤ 255` is the first position from 13 on at which the trailer
signature ends, then `read()` returns on byte `q`, leaves the later bytes, and
takes `someone` and `distance` from offsets 6 and 7 relative to the start
`p2 - 4` of the second header in the buffer (which holds the first `q` bytes of
the stream); when those offsets lie inside the stream they are the stream bytes
at `p2 + 2` and `p2 + 3`. When byte `q` has been stored, `frame_start` is
`p2 - 4`. -/
theorem last_header_wins (sig : Signatures) (s : RD03) (bs : List Nat) (p1 p2 q : Nat)
    (hH : sig.FRAME_HEADER.length = 4) (hE : sig.FRAME_END.length = 4)
    (hH3 : sig.FRAME_HEADER.getD 3 0 = FH_LAST) (hE3 : sig.FRAME_END.getD 3 0 = FE_LAST)
    (hlen : s.serial_data.buffer.length = 512)
    (hb : ∀ b ∈ bs, b < 256)
    (hq : q ≤ 255) (h13 : 13 ≤ q)
    (hp1 : headerEndsAt sig bs p1 = true) (hp2 : headerEndsAt sig bs p2 = true)
    (h12 : p1 < p2) (h2q : p2 < q)
    (hno : ∀ p, p2 < p → p < q → headerEndsAt sig bs p = false)
    (hT : trailerEndsAt sig bs q = true)
    (hfirst : ∀ p, 13 ≤ p → p < q → trailerEndsAt sig bs p = false) :
    (read sig s (backToBack bs)).2 = backToBack (bs.drop q) ∧
    (read sig s (backToBack bs)).1.start_reading = false ∧
    (read sig s (backToBack bs)).1.someone =
      (bs.take q ++ s.serial_data.buffer.drop q).getD (p2 - 4 + SOMEONE) 0 ∧
    (read sig s (backToBack bs)).1.distance =
      (bs.take q ++ s.serial_data.buffer.drop q).getD (p2 - 4 + TARGET_RANGE_0) 0 ∧
    (p2 + 4 ≤ q →
      (read sig s (backToBack bs)).1.someone = bs.getD (p2 + 2) 0 ∧
      (read sig s (backToBack bs)).1.distance = bs.getD (p2 + 3) 0) ∧
    bufferAtByte sig s (bs.take (q - 1)) (bs.getD (q - 1) 0) =
      { buffer := bs.take q ++ s.serial_data.buffer.drop q, size := q, frame_start := p2 - 4 } := by
  have h1 : p1 < q := Nat.lt_trans h12 h2q
  have h2 : headerEndsAt sig bs p1 = true := hp1
  exact read_takes_last_header sig s bs p2 q hH hE hH3 hE3 hlen hb hq h13 hp2 h2q hno hT hfirst

end Rd03

namespace Rd03

/-! ## Claims about frames in a stream -/

theorem freshDevice_buffer_length : freshDevice.serial_data.buffer.length = 512 :=
  List.length_replicate 512 0

/-- The 256th byte of a call never completes it: after 255 bytes without `0xF5`
the 8-bit counter wraps to zero on the next byte, whatever that byte is. -/
theorem feed_wraps_at_256 (sig : Signatures) (s : RD03) (pre : List Nat) (c : Nat)
    (hH : sig.FRAME_HEADER.length = 4) (hE : sig.FRAME_END.length = 4)
    (hnoFE : ∀ b ∈ pre, b % 256 ≠ FE_LAST) (hlen : pre.length = 255) :
    (feed sig (readEntry s) (pre ++ [c])).1.start_reading = true ∧
    (feed sig (readEntry s) (pre ++ [c])).1.serial_data.size = 0 ∧
    (feed sig (readEntry s) (pre ++ [c])).1.someone = s.someone ∧
    (feed sig (readEntry s) (pre ++ [c])).1.distance = s.distance := by
  have hrun := feed_no_FE sig (readEntry s) pre rfl hnoFE
  obtain ⟨_, k2, k3, k4, _⟩ := feed_running sig (readEntry s) pre
    (by show 0 < 256; decide) hrun
  rw [hlen] at k4
  have k4b : (feed sig (readEntry s) pre).1.serial_data.size = 255 := k4
  obtain ⟨w1, w2, w3, w4⟩ := onByte_at_255 sig _ c hH hE k4b
  rw [feed_append_running sig _ _ _ hrun, feed_cons_running sig _ _ _ hrun]
  refine ⟨?_, w4, ?_, ?_⟩
  · show (onByte sig _ c).start_reading = true
    rw [w1]
    exact hrun
  · show (onByte sig _ c).someone = s.someone
    rw [w2, k2]
    rfl
  · show (onByte sig _ c).distance = s.distance
    rw [w3, k3]
    rfl

set_option maxRecDepth 1000000 in
set_option maxHeartbeats 1000000 in
/-- C1 at a frame that ends on the 256th byte: 243 noise bytes followed by a
well-formed 13-byte frame are 256 bytes in all, within the 512-byte buffer, and
contain no header or trailer signature but the frame's own; yet for every prior
state `read()` does not complete on the last byte of the frame (the 8-bit `size`
has wrapped to 0, below the required 13): it is still running and `someone` and
`distance` are not taken from the frame. -/
theorem read_misses_frame_ending_at_byte_256 (s : RD03) :
    frameBehindNoise.length = 256 ∧ frameBehindNoise.length ≤ BUFFER_CAPACITY ∧
    headerEndsAt sampleSignatures frameBehindNoise 247 = true ∧
    (∀ p, headerEndsAt sampleSignatures frameBehindNoise p = true → p = 247) ∧
    trailerEndsAt sampleSignatures frameBehindNoise 256 = true ∧
    (∀ p, trailerEndsAt sampleSignatures frameBehindNoise p = true → p = 256) ∧
    frameBehindNoise.getD (243 + SOMEONE) 0 = 1 ∧
    frameBehindNoise.getD (243 + TARGET_RANGE_0) 0 = 5 ∧
    (read sampleSignatures s (backToBack frameBehindNoise)).1.start_reading = true ∧
    (read sampleSignatures s (backToBack frameBehindNoise)).1.serial_data.size = 0 ∧
    (read sampleSignatures s (backToBack frameBehindNoise)).1.someone = s.someone ∧
    (read sampleSignatures s (backToBack frameBehindNoise)).1.distance = s.distance := by
  have hH : ∀ p, p < 257 → headerEndsAt sampleSignatures frameBehindNoise p = true → p = 247 := by
    decide
  have hT : ∀ p, p < 257 → trailerEndsAt sampleSignatures frameBehindNoise p = true → p = 256 := by
    decide
  have hsplit : frameBehindNoise = frameBehindNoise.take 255 ++ [0xF5] := by decide
  have hnoFE : ∀ b ∈ frameBehindNoise.take 255, b % 256 ≠ FE_LAST := by decide
  have hlen255 : (frameBehindNoise.take 255).length = 255 := by decide
  obtain ⟨w1, w4, w2, w3⟩ := feed_wraps_at_256 sampleSignatures s
    (frameBehindNoise.take 255) 0xF5 rfl rfl hnoFE hlen255
  rw [← hsplit] at w1 w2 w3 w4
  rw [read_backToBack_fst]
  refine ⟨by decide, by decide, by decide, ?_, by decide, ?_, by decide, by decide,
    ?_, w4, ?_, ?_⟩
  · intro p hp
    have hle : p ≤ frameBehindNoise.length := by
      unfold headerEndsAt at hp
      simp only [Bool.and_eq_true, decide_eq_true_eq] at hp
      exact hp.1.2
    have h256 : frameBehindNoise.length = 256 := by decide
    exact hH p (by omega) hp
  · intro p hp
    have hle : p ≤ frameBehindNoise.length := by
      unfold trailerEndsAt at hp
      simp only [Bool.and_eq_true, decide_eq_true_eq] at hp
      exact hp.1.2
    have h256 : frameBehindNoise.length = 256 := by decide
    exact hT p (by omega) hp
  · exact w1
  · exact w2
  · exact w3

/-- C2: for every pair of length bytes, when `read()` is started and the
transport delivers the 13 bytes `FRAME_HEADER ++ [len0, len1, 1, 5, 0] ++
FRAME_END` (header ending in `0xF1`, trailer ending in `0xF5`, the byte `0xF1`
occurring in the two signatures only as the header's last byte), `read()` is
still running after 12 bytes and completes on the 13th with `someone = 1` and
`distance = 5`, leaving whatever follows. -/
theorem read_example_frame (sig : Signatures) (s : RD03)
    (h0 h1 h2 e0 e1 e2 len0 len1 : Nat) (post : List Nat)
    (hH : sig.FRAME_HEADER = [h0, h1, h2, 0xF1])
    (hE : sig.FRAME_END = [e0, e1, e2, 0xF5])
    (hbytes : h0 < 256 ∧ h1 < 256 ∧ h2 < 256 ∧ e0 < 256 ∧ e1 < 256 ∧ e2 < 256 ∧
      len0 < 256 ∧ len1 < 256)
    (hF1 : h0 ≠ 0xF1 ∧ h1 ≠ 0xF1 ∧ h2 ≠ 0xF1 ∧ e0 ≠ 0xF1 ∧ e1 ≠ 0xF1 ∧ e2 ≠ 0xF1)
    (hlen : s.serial_data.buffer.length = 512) :
    (exampleFrame sig len0 len1).length = 13 ∧
    (read sig s (backToBack ((exampleFrame sig len0 len1).take 12))).1.start_reading = true ∧
    (read sig s (backToBack (exampleFrame sig len0 len1 ++ post))).2 = backToBack post ∧
    (read sig s (backToBack (exampleFrame sig len0 len1 ++ post))).1.start_reading = false ∧
    (read sig s (backToBack (exampleFrame sig len0 len1 ++ post))).1.someone = 1 ∧
    (read sig s (backToBack (exampleFrame sig len0 len1 ++ post))).1.distance = 5 := by
  have hx : exampleFrame sig len0 len1 =
      [h0, h1, h2, 0xF1, len0, len1, 1, 5, 0, e0, e1, e2, 0xF5] := by
    simp [exampleFrame, hH, hE]
  rw [hx]
  exact ⟨rfl, read_example_frame_aux sig s h0 h1 h2 e0 e1 e2 len0 len1 post hH hE hbytes hF1 hlen⟩

/-- Witness of C2 on a freshly constructed object, length bytes 5 and 0, nothing
delivered after the frame. -/
theorem read_example_frame_witness :
    (sampleSignatures.FRAME_HEADER = [0xF4, 0xF3, 0xF2, 0xF1] ∧
      sampleSignatures.FRAME_END = [0xF8, 0xF7, 0xF6, 0xF5] ∧
      freshDevice.serial_data.buffer.length = 512) ∧
    (exampleFrame sampleSignatures 5 0).length = 13 ∧
    (read sampleSignatures freshDevice
      (backToBack ((exampleFrame sampleSignatures 5 0).take 12))).1.start_reading = true ∧
    (read sampleSignatures freshDevice
      (backToBack (exampleFrame sampleSignatures 5 0 ++ []))).2 = backToBack [] ∧
    (read sampleSignatures freshDevice
      (backToBack (exampleFrame sampleSignatures 5 0 ++ []))).1.start_reading = false ∧
    (read sampleSignatures freshDevice
      (backToBack (exampleFrame sampleSignatures 5 0 ++ []))).1.someone = 1 ∧
    (read sampleSignatures freshDevice
      (backToBack (exampleFrame sampleSignatures 5 0 ++ []))).1.distance = 5 :=
  ⟨⟨rfl, rfl, freshDevice_buffer_length⟩,
    read_example_frame sampleSignatures freshDevice 0xF4 0xF3 0xF2 0xF8 0xF7 0xF6 5 0 []
      rfl rfl (by decide) (by decide) freshDevice_buffer_length⟩

end Rd03

namespace Rd03

/-! ## Concrete runs -/

set_option maxRecDepth 1000000 in
set_option maxHeartbeats 4000000 in
/-- C3 at a second header that ends on the 256th byte: `secondHeaderAtWrap` is
269 bytes long, within the 512-byte buffer; the header signature ends at
positions 104 and 256 and nowhere else, the only trailer signature ends at
position 269, and `read()` is still running after 268 bytes and returns on byte
269. The stream bytes at offsets 6 and 7 from the start `256 - 4` of the second
header are 1 and 5, yet `read()` leaves `someone = 9` and `distance = 7`, the
bytes at offsets 6 and 7 from the start `104 - 4` of the first header: when the
last byte of the second header is stored the 8-bit `size` wraps to 0, the header
test `size >= fh_size` fails, and `frame_start` is still 100 when the completing
byte is stored. -/
theorem second_header_lost_at_byte_256 :
    secondHeaderAtWrap.length = 269 ∧ secondHeaderAtWrap.length ≤ BUFFER_CAPACITY ∧
    headerEndsAt sampleSignatures secondHeaderAtWrap 104 = true ∧
    headerEndsAt sampleSignatures secondHeaderAtWrap 256 = true ∧
    (∀ p, headerEndsAt sampleSignatures secondHeaderAtWrap p = true → p = 104 ∨ p = 256) ∧
    trailerEndsAt sampleSignatures secondHeaderAtWrap 269 = true ∧
    (∀ p, trailerEndsAt sampleSignatures secondHeaderAtWrap p = true → p = 269) ∧
    secondHeaderAtWrap.getD (256 - 4 + SOMEONE) 0 = 1 ∧
    secondHeaderAtWrap.getD (256 - 4 + TARGET_RANGE_0) 0 = 5 ∧
    secondHeaderAtWrap.getD (104 - 4 + SOMEONE) 0 = 9 ∧
    secondHeaderAtWrap.getD (104 - 4 + TARGET_RANGE_0) 0 = 7 ∧
    (read sampleSignatures freshDevice
      (backToBack (secondHeaderAtWrap.take 256))).1.serial_data.size = 0 ∧
    (read sampleSignatures freshDevice
      (backToBack (secondHeaderAtWrap.take 256))).1.serial_data.frame_start = 104 - 4 ∧
    (read sampleSignatures freshDevice
      (backToBack (secondHeaderAtWrap.take 268))).1.start_reading = true ∧
    (bufferAtByte sampleSignatures freshDevice (secondHeaderAtWrap.take 268)
      (secondHeaderAtWrap.getD 268 0)).frame_start = 104 - 4 ∧
    (read sampleSignatures freshDevice (backToBack secondHeaderAtWrap)).2 = [] ∧
    (read sampleSignatures freshDevice (backToBack secondHeaderAtWrap)).1.start_reading = false ∧
    (read sampleSignatures freshDevice (backToBack secondHeaderAtWrap)).1.someone = 9 ∧
    (read sampleSignatures freshDevice (backToBack secondHeaderAtWrap)).1.distance = 7 := by
  have hH : ∀ p, p < 270 →
      headerEndsAt sampleSignatures secondHeaderAtWrap p = true → p = 104 ∨ p = 256 := by
    decide
  have hT : ∀ p, p < 270 →
      trailerEndsAt sampleSignatures secondHeaderAtWrap p = true → p = 269 := by
    decide
  have h269 : secondHeaderAtWrap.length = 269 := by decide
  refine ⟨h269, by decide, by decide, by decide, ?_, by decide, ?_, by decide, by decide,
    by decide, by decide, by decide, by decide, by decide, by decide, by decide, by decide,
    by decide, by decide⟩
  · intro p hp
    have hle : p ≤ secondHeaderAtWrap.length := by
      unfold headerEndsAt at hp
      simp only [Bool.and_eq_true, decide_eq_true_eq] at hp
      exact hp.1.2
    exact hH p (by omega) hp
  · intro p hp
    have hle : p ≤ secondHeaderAtWrap.length := by
      unfold trailerEndsAt at hp
      simp only [Bool.and_eq_true, decide_eq_true_eq] at hp
      exact hp.1.2
    exact hT p (by omega) hp

/-- An instance of `last_header_wins`: in `twoHeaders` the header signature
ends at positions 4 and 9 and the trailer at 18; the reading comes from the
second header. -/
theorem last_header_wins_witness :
    (headerEndsAt sampleSignatures twoHeaders 4 = true ∧
      headerEndsAt sampleSignatures twoHeaders 9 = true ∧
      trailerEndsAt sampleSignatures twoHeaders 18 = true ∧
      freshDevice.serial_data.buffer.length = 512) ∧
    (read sampleSignatures freshDevice (backToBack twoHeaders)).2 =
      backToBack (twoHeaders.drop 18) ∧
    (read sampleSignatures freshDevice (backToBack twoHeaders)).1.start_reading = false ∧
    (read sampleSignatures freshDevice (backToBack twoHeaders)).1.someone =
      (twoHeaders.take 18 ++ freshDevice.serial_data.buffer.drop 18).getD (9 - 4 + SOMEONE) 0 ∧
    (read sampleSignatures freshDevice (backToBack twoHeaders)).1.distance =
      (twoHeaders.take 18 ++ freshDevice.serial_data.buffer.drop 18).getD
        (9 - 4 + TARGET_RANGE_0) 0 ∧
    (9 + 4 ≤ 18 →
      (read sampleSignatures freshDevice (backToBack twoHeaders)).1.someone =
        twoHeaders.getD (9 + 2) 0 ∧
      (read sampleSignatures freshDevice (backToBack twoHeaders)).1.distance =
        twoHeaders.getD (9 + 3) 0) ∧
    bufferAtByte sampleSignatures freshDevice (twoHeaders.take (18 - 1))
        (twoHeaders.getD (18 - 1) 0) =
      { buffer := twoHeaders.take 18 ++ freshDevice.serial_data.buffer.drop 18, size := 18,
        frame_start := 9 - 4 } :=
  ⟨⟨by decide, by decide, by decide, freshDevice_buffer_length⟩,
    last_header_wins sampleSignatures freshDevice twoHeaders 4 9 18 rfl rfl rfl rfl
      freshDevice_buffer_length (by decide) (by decide) (by decide) (by decide) (by decide)
      (by decide) (by decide)
      (fun p h1 h2 =>
        (by decide : ∀ p, p < 18 → 9 < p → headerEndsAt sampleSignatures twoHeaders p = false)
          p h2 h1)
      (by decide)
      (fun p h1 h2 =>
        (by decide : ∀ p, p < 18 → 13 ≤ p → trailerEndsAt sampleSignatures twoHeaders p = false)
          p h2 h1)⟩

set_option maxRecDepth 100000 in
/-- C4 at a header directly followed by a trailer behind nine noise bytes: the
trailer signature ends on byte 17, where `frame_start` is 9, so only 8 bytes
(fewer than 13) have accumulated since `frame_start`; yet `read()` completes on
that byte and overwrites `someone` and `distance` with trailer bytes. -/
theorem short_frame_completes :
    headerEndsAt sampleSignatures shortFrame 13 = true ∧
    trailerEndsAt sampleSignatures shortFrame 17 = true ∧
    (read sampleSignatures freshDevice (backToBack (shortFrame.take 16))).1.start_reading
      = true ∧
    (bufferAtByte sampleSignatures freshDevice (shortFrame.take 16) 0xF5).size = 17 ∧
    (bufferAtByte sampleSignatures freshDevice (shortFrame.take 16) 0xF5).frame_start = 9 ∧
    17 - 9 < 13 ∧
    (read sampleSignatures freshDevice (backToBack shortFrame)).1.start_reading = false ∧
    (read sampleSignatures freshDevice (backToBack shortFrame)).2 = [] ∧
    freshDevice.someone = 0 ∧ freshDevice.distance = 0 ∧
    (read sampleSignatures freshDevice (backToBack shortFrame)).1.someone = 0xF6 ∧
    (read sampleSignatures freshDevice (backToBack shortFrame)).1.distance = 0xF5 := by
  decide

set_option maxRecDepth 100000 in
/-- C5 as stated fails on a trailer with no header before it: on byte 13 the
trailer signature matches with 13 bytes counted and the four bytes at
`frame_start` are not `FRAME_HEADER`, yet `read()` returns on that byte, with
`size` reset, and does not consume the byte that follows. -/
theorem malformed_frame_does_not_keep_accumulating :
    (read sampleSignatures freshDevice (backToBack (orphanTrailer.take 12))).1.start_reading
      = true ∧
    orphanTrailer.getD 12 0 = 0xF5 ∧
    (bufferAtByte sampleSignatures freshDevice (orphanTrailer.take 12) 0xF5).size = 13 ∧
    trailerMatch sampleSignatures
      (bufferAtByte sampleSignatures freshDevice (orphanTrailer.take 12) 0xF5) = true ∧
    headerRecheck sampleSignatures
      (bufferAtByte sampleSignatures freshDevice (orphanTrailer.take 12) 0xF5) = false ∧
    (read sampleSignatures freshDevice (backToBack orphanTrailer)).1.start_reading = false ∧
    (read sampleSignatures freshDevice (backToBack orphanTrailer)).2 = [some 7] ∧
    (read sampleSignatures freshDevice (backToBack orphanTrailer)).1.serial_data.size = 0 := by
  decide

set_option maxRecDepth 100000 in
/-- Witness of C5 as amended: twenty stray bytes, a trailer without a header,
three more bytes. -/
theorem malformed_frame_returns_witness :
    ((read sampleSignatures freshDevice
        (backToBack (List.replicate 20 0x11 ++ [0xF8, 0xF7, 0xF6]))).1.start_reading = true ∧
      0xF5 % 256 = FE_LAST ∧
      trailerMatch sampleSignatures (bufferAtByte sampleSignatures freshDevice
        (List.replicate 20 0x11 ++ [0xF8, 0xF7, 0xF6]) 0xF5) = true ∧
      headerRecheck sampleSignatures (bufferAtByte sampleSignatures freshDevice
        (List.replicate 20 0x11 ++ [0xF8, 0xF7, 0xF6]) 0xF5) = false) ∧
    (read sampleSignatures freshDevice (backToBack
      ((List.replicate 20 0x11 ++ [0xF8, 0xF7, 0xF6]) ++ 0xF5 :: [1, 2, 3]))).2
        = backToBack [1, 2, 3] ∧
    (read sampleSignatures freshDevice (backToBack
      ((List.replicate 20 0x11 ++ [0xF8, 0xF7, 0xF6]) ++ 0xF5 :: [1, 2, 3]))).1.start_reading
        = false ∧
    (read sampleSignatures freshDevice (backToBack
      ((List.replicate 20 0x11 ++ [0xF8, 0xF7, 0xF6]) ++ 0xF5 :: [1, 2, 3]))).1.someone
        = freshDevice.someone ∧
    (read sampleSignatures freshDevice (backToBack
      ((List.replicate 20 0x11 ++ [0xF8, 0xF7, 0xF6]) ++ 0xF5 :: [1, 2, 3]))).1.distance
        = freshDevice.distance ∧
    (read sampleSignatures freshDevice (backToBack
      ((List.replicate 20 0x11 ++ [0xF8, 0xF7, 0xF6]) ++ 0xF5 :: [1, 2, 3]))).1.serial_data.size
        = 0 ∧
    (read sampleSignatures freshDevice (backToBack
      ((List.replicate 20 0x11 ++ [0xF8, 0xF7, 0xF6]) ++ 0xF5 :: [1, 2, 3]))).1.serial_data.frame_start
        = 0 :=
  ⟨by decide,
    malformed_frame_returns sampleSignatures freshDevice
      (List.replicate 20 0x11 ++ [0xF8, 0xF7, 0xF6]) 0xF5 [1, 2, 3]
      (by decide) (by decide) (by decide) (by decide)⟩

end Rd03

namespace Rd03

set_option maxRecDepth 100000 in
/-- Witness of C6: the example frame delivered with idle polls; `read()`
returns. -/
theorem reading_updated_atomically_witness :
    (read sampleSignatures freshDevice idleSchedule).1.start_reading = false ∧
    ∃ pre c,
      delivered idleSchedule =
        pre ++ c :: delivered (read sampleSignatures freshDevice idleSchedule).2 ∧
      (read sampleSignatures freshDevice (backToBack pre)).1.start_reading = true ∧
      c % 256 = FE_LAST ∧
      trailerMatch sampleSignatures (bufferAtByte sampleSignatures freshDevice pre c) = true ∧
      ((headerRecheck sampleSignatures (bufferAtByte sampleSignatures freshDevice pre c) = true ∧
          (read sampleSignatures freshDevice idleSchedule).1.someone =
            (bufferAtByte sampleSignatures freshDevice pre c).buffer.getD
              ((bufferAtByte sampleSignatures freshDevice pre c).frame_start + SOMEONE) 0 ∧
          (read sampleSignatures freshDevice idleSchedule).1.distance =
            (bufferAtByte sampleSignatures freshDevice pre c).buffer.getD
              ((bufferAtByte sampleSignatures freshDevice pre c).frame_start + TARGET_RANGE_0) 0) ∨
        (headerRecheck sampleSignatures (bufferAtByte sampleSignatures freshDevice pre c) = false ∧
          (read sampleSignatures freshDevice idleSchedule).1.someone = freshDevice.someone ∧
          (read sampleSignatures freshDevice idleSchedule).1.distance = freshDevice.distance)) :=
  ⟨by decide, reading_updated_atomically sampleSignatures freshDevice idleSchedule (by decide)⟩

set_option maxRecDepth 1000000 in
set_option maxHeartbeats 4000000 in
/-- C7 as stated fails on 513 zero bytes, more than the 512-byte buffer holds and
no frame among them: no overflow is signalled, `read()` is still running with
every byte consumed, and the buffer is not empty afterwards (`size` is 1). -/
theorem overflow_is_not_signalled :
    overflowStream.length = 513 ∧ BUFFER_CAPACITY < overflowStream.length ∧
    (read sampleSignatures freshDevice (backToBack overflowStream)).1.start_reading = true ∧
    (read sampleSignatures freshDevice (backToBack overflowStream)).2 = [] ∧
    (read sampleSignatures freshDevice (backToBack overflowStream)).1.serial_data.size = 1 := by
  decide

set_option maxRecDepth 1000000 in
set_option maxHeartbeats 4000000 in
/-- Witness of C7 as amended: 600 bytes `0x22` delivered back to back. -/
theorem read_never_overflows_witness :
    (read sampleSignatures freshDevice
      (backToBack (List.replicate 600 0x22))).1.start_reading = true ∧
    (read sampleSignatures freshDevice
      (backToBack (List.replicate 600 0x22))).1.serial_data.size =
        (delivered (backToBack (List.replicate 600 0x22))).length % 256 ∧
    delivered (read sampleSignatures freshDevice
      (backToBack (List.replicate 600 0x22))).2 = [] ∧
    (read sampleSignatures freshDevice
      (backToBack (List.replicate 600 0x22))).1.someone = freshDevice.someone ∧
    (read sampleSignatures freshDevice
      (backToBack (List.replicate 600 0x22))).1.distance = freshDevice.distance :=
  ⟨by decide,
    read_never_overflows sampleSignatures freshDevice (backToBack (List.replicate 600 0x22))
      (by decide)⟩

set_option maxRecDepth 100000 in
/-- Witness of C8: the example frame with idle polls against the same bytes
back to back. -/
theorem read_schedule_independent_witness :
    delivered idleSchedule = delivered (backToBack (exampleFrame sampleSignatures 0 0)) ∧
    bytesConsumed sampleSignatures freshDevice idleSchedule =
      bytesConsumed sampleSignatures freshDevice
        (backToBack (exampleFrame sampleSignatures 0 0)) ∧
    (read sampleSignatures freshDevice idleSchedule).1.someone =
      (read sampleSignatures freshDevice
        (backToBack (exampleFrame sampleSignatures 0 0))).1.someone ∧
    (read sampleSignatures freshDevice idleSchedule).1.distance =
      (read sampleSignatures freshDevice
        (backToBack (exampleFrame sampleSignatures 0 0))).1.distance ∧
    (read sampleSignatures freshDevice idleSchedule).1.serial_data.size =
      (read sampleSignatures freshDevice
        (backToBack (exampleFrame sampleSignatures 0 0))).1.serial_data.size ∧
    (read sampleSignatures freshDevice idleSchedule).1.serial_data.frame_start =
      (read sampleSignatures freshDevice
        (backToBack (exampleFrame sampleSignatures 0 0))).1.serial_data.frame_start ∧
    (read sampleSignatures freshDevice idleSchedule).1 =
      (read sampleSignatures freshDevice
        (backToBack (exampleFrame sampleSignatures 0 0))).1 ∧
    delivered (read sampleSignatures freshDevice idleSchedule).2 =
      delivered (read sampleSignatures freshDevice
        (backToBack (exampleFrame sampleSignatures 0 0))).2 :=
  ⟨by decide,
    read_schedule_independent sampleSignatures freshDevice idleSchedule
      (backToBack (exampleFrame sampleSignatures 0 0)) (by decide)⟩

end Rd03

namespace Rd03

/-! ## One frame behind noise, within 255 bytes -/

theorem headerEndsAt_of_concat (sig : Signatures) (pre rest : List Nat)
    (hH : sig.FRAME_HEADER.length = 4) :
    headerEndsAt sig (pre ++ sig.FRAME_HEADER ++ rest) (pre.length + 4) = true := by
  have hfh : fh_size sig = 4 := by simp [fh_size, hH]
  unfold headerEndsAt
  rw [hfh]
  simp only [Bool.and_eq_true, decide_eq_true_eq]
  refine ⟨⟨by omega, by simp [hH]⟩, ?_⟩
  rw [memcmpEq_iff]
  intro i hi
  rw [List.append_assoc, List.getD_append_right pre _ 0 _ (by omega),
    List.getD_append _ rest 0 _ (by omega)]
  congr 1
  omega

theorem trailerEndsAt_of_concat (sig : Signatures) (pre : List Nat)
    (hE : sig.FRAME_END.length = 4) :
    trailerEndsAt sig (pre ++ sig.FRAME_END) (pre ++ sig.FRAME_END).length = true := by
  have hfe : fe_size sig = 4 := by simp [fe_size, hE]
  unfold trailerEndsAt
  rw [hfe]
  simp only [Bool.and_eq_true, decide_eq_true_eq, List.length_append, hE]
  refine ⟨⟨by omega, Nat.le_refl _⟩, ?_⟩
  rw [memcmpEq_iff]
  intro i hi
  rw [List.getD_append_right pre _ 0 _ (by omega)]
  congr 1
  omega

/-- The content of C1 within the range of the 8-bit counter: noise `N` followed by
a frame `FRAME_HEADER ++ payload ++ FRAME_END` with at least five payload bytes,
together at most 255 bytes and with no header or trailer signature but the
frame's own, makes `read()` return on the last byte of the frame with `someone`
the byte at offset 6 of the frame and `distance` the byte at offset 7, whatever
the length of `N`. -/
theorem read_single_frame_within_255 (sig : Signatures) (s : RD03)
    (N payload : List Nat)
    (hH : sig.FRAME_HEADER.length = 4) (hE : sig.FRAME_END.length = 4)
    (hH3 : sig.FRAME_HEADER.getD 3 0 = FH_LAST) (hE3 : sig.FRAME_END.getD 3 0 = FE_LAST)
    (hlen : s.serial_data.buffer.length = 512)
    (hpay : 5 ≤ payload.length)
    (hb : ∀ b ∈ N ++ (sig.FRAME_HEADER ++ payload ++ sig.FRAME_END), b < 256)
    (hshort : (N ++ (sig.FRAME_HEADER ++ payload ++ sig.FRAME_END)).length ≤ 255)
    (honlyH : ∀ p, headerEndsAt sig (N ++ (sig.FRAME_HEADER ++ payload ++ sig.FRAME_END)) p = true →
      p = N.length + 4)
    (honlyT : ∀ p, trailerEndsAt sig (N ++ (sig.FRAME_HEADER ++ payload ++ sig.FRAME_END)) p = true →
      p = (N ++ (sig.FRAME_HEADER ++ payload ++ sig.FRAME_END)).length) :
    (read sig s (backToBack
      (N ++ (sig.FRAME_HEADER ++ payload ++ sig.FRAME_END)))).2 = [] ∧
    (read sig s (backToBack
      (N ++ (sig.FRAME_HEADER ++ payload ++ sig.FRAME_END)))).1.start_reading = false ∧
    (read sig s (backToBack
      (N ++ (sig.FRAME_HEADER ++ payload ++ sig.FRAME_END)))).1.someone =
        (sig.FRAME_HEADER ++ payload ++ sig.FRAME_END).getD SOMEONE 0 ∧
    (read sig s (backToBack
      (N ++ (sig.FRAME_HEADER ++ payload ++ sig.FRAME_END)))).1.distance =
        (sig.FRAME_HEADER ++ payload ++ sig.FRAME_END).getD TARGET_RANGE_0 0 := by
  have hFlen : (sig.FRAME_HEADER ++ payload ++ sig.FRAME_END).length = payload.length + 8 := by
    simp only [List.length_append, hH, hE]
    omega
  have hlenNF : (N ++ (sig.FRAME_HEADER ++ payload ++ sig.FRAME_END)).length =
      N.length + payload.length + 8 := by
    rw [List.length_append, hFlen]
    omega
  have hhdr : headerEndsAt sig (N ++ (sig.FRAME_HEADER ++ payload ++ sig.FRAME_END))
      (N.length + 4) = true := by
    have := headerEndsAt_of_concat sig N (payload ++ sig.FRAME_END) hH
    rw [List.append_assoc, ← List.append_assoc sig.FRAME_HEADER] at this
    exact this
  have htrl : trailerEndsAt sig (N ++ (sig.FRAME_HEADER ++ payload ++ sig.FRAME_END))
      (N.length + payload.length + 8) = true := by
    have := trailerEndsAt_of_concat sig (N ++ (sig.FRAME_HEADER ++ payload)) hE
    rw [List.append_assoc N, hlenNF] at this
    exact this
  rw [hlenNF] at hshort honlyT
  obtain ⟨m1, m2, _, _, m5, _⟩ := read_takes_last_header sig s
    (N ++ (sig.FRAME_HEADER ++ payload ++ sig.FRAME_END))
    (N.length + 4) (N.length + payload.length + 8) hH hE hH3 hE3 hlen hb hshort (by omega)
    hhdr (by omega)
    (fun p h1 h2 => by
      by_contra hc
      have hc2 : headerEndsAt sig (N ++ (sig.FRAME_HEADER ++ payload ++ sig.FRAME_END)) p
          = true := by simpa using hc
      have := honlyH p hc2
      omega)
    htrl
    (fun p h1 h2 => by
      by_contra hc
      have hc2 : trailerEndsAt sig (N ++ (sig.FRAME_HEADER ++ payload ++ sig.FRAME_END)) p
          = true := by simpa using hc
      have := honlyT p hc2
      omega)
  obtain ⟨m6, m7⟩ := m5 (by omega)
  refine ⟨?_, m2, ?_, ?_⟩
  · rw [m1, List.drop_of_length_le (by rw [hlenNF])]
    rfl
  · rw [m6, List.getD_append_right N _ 0 _ (by omega)]
    congr 1
    simp only [SOMEONE]
    omega
  · rw [m7, List.getD_append_right N _ 0 _ (by omega)]
    congr 1
    simp only [TARGET_RANGE_0]
    omega

end Rd03

namespace Rd03

set_option maxRecDepth 1000000 in
set_option maxHeartbeats 4000000 in
/-- The same frame behind 242 noise bytes ends on byte 255 and is decoded. -/
theorem read_single_frame_at_byte_255 :
    (read sampleSignatures freshDevice (backToBack
      (List.replicate 242 0 ++
        (sampleSignatures.FRAME_HEADER ++ [0, 0, 1, 5, 0] ++ sampleSignatures.FRAME_END)))).1.someone
      = 1 ∧
    (read sampleSignatures freshDevice (backToBack
      (List.replicate 242 0 ++
        (sampleSignatures.FRAME_HEADER ++ [0, 0, 1, 5, 0] ++ sampleSignatures.FRAME_END)))).1.distance
      = 5 := by
  have h := read_single_frame_within_255 sampleSignatures freshDevice (List.replicate 242 0)
    [0, 0, 1, 5, 0] rfl rfl rfl rfl freshDevice_buffer_length (by decide) (by decide) (by decide)
    (fun p hp => by
      have hle : p ≤ 255 := by
        unfold headerEndsAt at hp
        simp only [Bool.and_eq_true, decide_eq_true_eq] at hp
        exact hp.1.2
      exact (by decide : ∀ p, p < 256 →
        headerEndsAt sampleSignatures (List.replicate 242 0 ++
          (sampleSignatures.FRAME_HEADER ++ [0, 0, 1, 5, 0] ++ sampleSignatures.FRAME_END)) p
            = true → p = (List.replicate 242 0).length + 4) p (by omega) hp)
    (fun p hp => by
      have hle : p ≤ 255 := by
        unfold trailerEndsAt at hp
        simp only [Bool.and_eq_true, decide_eq_true_eq] at hp
        exact hp.1.2
      exact (by decide : ∀ p, p < 256 →
        trailerEndsAt sampleSignatures (List.replicate 242 0 ++
          (sampleSignatures.FRAME_HEADER ++ [0, 0, 1, 5, 0] ++ sampleSignatures.FRAME_END)) p
            = true → p = (List.replicate 242 0 ++
          (sampleSignatures.FRAME_HEADER ++ [0, 0, 1, 5, 0] ++ sampleSignatures.FRAME_END)).length)
        p (by omega) hp)
  exact ⟨h.2.2.1, h.2.2.2⟩

end Rd03

namespace Rd03

/-- The guard the code does have: a byte that brings the 8-bit counter to less
than 13 never ends the cycle and never touches the reading. -/
theorem onByte_below_min_packet_size (sig : Signatures) (s : RD03) (b : Nat)
    (hH : sig.FRAME_HEADER.length = 4) (hE : sig.FRAME_END.length = 4)
    (hsz : (s.serial_data.size + 1) % 256 < 13) :
    (onByte sig s b).start_reading = s.start_reading ∧
    (onByte sig s b).someone = s.someone ∧
    (onByte sig s b).distance = s.distance := by
  have hT : trailerMatch sig (appendByte s.serial_data (b % 256)) = false := by
    have hmin : min_packet_size sig = 13 := by simp [min_packet_size, fe_size, hH, hE]
    unfold trailerMatch
    rw [hmin]
    simp only [appendByte, Bool.and_eq_false_iff, decide_eq_false_iff_not]
    left
    omega
  unfold onByte
  simp only
  split_ifs <;> simp_all

end Rd03

namespace Rd03

/-! ## The command sequence of `begin` -/

/-- Lines 76-78: the clamp applied to an 8-bit argument. -/
theorem clamp_eq_min (x bound : Nat) :
    (if x > bound then bound else if x < 0 then 0 else x) = min x bound := by
  split_ifs <;> omega

/-- The frames `begin` writes, in order: all six command arrays, with the
parameter byte of the maximum-distance and delay commands overwritten. -/
theorem begin_transmitted (s : RD03) (_min _max _delay : Nat) :
    transmitted (begin s _min _max _delay).2 =
      [s.commands.open_command_mode,
       s.commands.set_min_distance,
       s.commands.set_max_distance.set PARAMETER_VALUE (min _max 15),
       s.commands.set_delay_time.set PARAMETER_VALUE (min _delay 30),
       s.commands.reporting_mode,
       s.commands.close_command_mode] := by
  simp only [begin, clamp_eq_min]
  cases s.with_pins <;> rfl

/-- The command table after `begin`. -/
theorem begin_commands (s : RD03) (_min _max _delay : Nat) :
    (begin s _min _max _delay).1.commands =
      { s.commands with
        set_max_distance := s.commands.set_max_distance.set PARAMETER_VALUE (min _max 15),
        set_delay_time := s.commands.set_delay_time.set PARAMETER_VALUE (min _delay 30) } := by
  simp only [begin, clamp_eq_min]

end Rd03

namespace Rd03

theorem getD_set_same (l : List Nat) (i v : Nat) (h : i < l.length) :
    (l.set i v).getD i 0 = v := by
  rw [List.getD_eq_getElem _ 0 (by rw [List.length_set]; exact h), List.getElem_set_self]

theorem getD_set_other (l : List Nat) (i j v : Nat) (h : j ≠ i) :
    (l.set i v).getD j 0 = l.getD j 0 := by
  simp only [List.getD_eq_getElem?_getD]
  rw [List.getElem?_set_ne (Ne.symm h)]

/-- C11 as stated fails: with the arguments `begin(20, 3, 40)` the object writes
six frames, and the second one is the set-min-distance command. -/
theorem begin_transmits_set_min_distance :
    transmitted (begin freshDevice 20 3 40).2 =
      [sampleCommands.open_command_mode,
       sampleCommands.set_min_distance,
       sampleCommands.set_max_distance.set PARAMETER_VALUE 3,
       sampleCommands.set_delay_time.set PARAMETER_VALUE 30,
       sampleCommands.reporting_mode,
       sampleCommands.close_command_mode] ∧
    (transmitted (begin freshDevice 20 3 40).2).length = 6 ∧
    sampleCommands.set_min_distance ∈ transmitted (begin freshDevice 20 3 40).2 ∧
    transmitted (begin freshDevice 20 3 40).2 ≠
      [sampleCommands.open_command_mode,
       sampleCommands.set_max_distance.set PARAMETER_VALUE 3,
       sampleCommands.set_delay_time.set PARAMETER_VALUE 30,
       sampleCommands.reporting_mode,
       sampleCommands.close_command_mode] := by
  decide

/-- C11 as the code has it: for every configuration the frames `begin()` writes
are exactly, in order, enter-configuration-mode, set-min-distance (the command
array as it stands, `begin` does not put the minimum into it), set-max-distance,
set-delay, set-reporting-mode and exit-configuration-mode: six frames. -/
theorem begin_command_sequence (s : RD03) (_min _max _delay : Nat) :
    transmitted (begin s _min _max _delay).2 =
      [(begin s _min _max _delay).1.commands.open_command_mode,
       (begin s _min _max _delay).1.commands.set_min_distance,
       (begin s _min _max _delay).1.commands.set_max_distance,
       (begin s _min _max _delay).1.commands.set_delay_time,
       (begin s _min _max _delay).1.commands.reporting_mode,
       (begin s _min _max _delay).1.commands.close_command_mode] ∧
    (transmitted (begin s _min _max _delay).2).length = 6 ∧
    (begin s _min _max _delay).1.commands.open_command_mode = s.commands.open_command_mode ∧
    (begin s _min _max _delay).1.commands.set_min_distance = s.commands.set_min_distance ∧
    (begin s _min _max _delay).1.commands.reporting_mode = s.commands.reporting_mode ∧
    (begin s _min _max _delay).1.commands.close_command_mode = s.commands.close_command_mode := by
  rw [begin_transmitted, begin_commands]
  exact ⟨rfl, rfl, rfl, rfl, rfl, rfl⟩

/-- C12: for 8-bit arguments, the set-max-distance frame `begin()` transmits (the
third frame written) carries the clamped maximum at offset
`PARAMETER_VALUE = 0x0A` and the set-delay frame (the fourth) carries the
clamped delay there; every other byte and the length of those two command
arrays are unchanged; the set-min-distance array is not modified at all, the
minimum is stored in the object only, and no transmitted byte depends on it. -/
theorem begin_embeds_parameters (s : RD03) (_min _max _delay : Nat)
    (hmin : _min < 256) (hmax : _max < 256) (hdelay : _delay < 256)
    (hlmax : PARAMETER_VALUE < s.commands.set_max_distance.length)
    (hldelay : PARAMETER_VALUE < s.commands.set_delay_time.length) :
    (transmitted (begin s _min _max _delay).2).getD 2 [] =
      (begin s _min _max _delay).1.commands.set_max_distance ∧
    (begin s _min _max _delay).1.commands.set_max_distance.getD PARAMETER_VALUE 0 = min _max 15 ∧
    (∀ i, i ≠ PARAMETER_VALUE →
      (begin s _min _max _delay).1.commands.set_max_distance.getD i 0 =
        s.commands.set_max_distance.getD i 0) ∧
    (begin s _min _max _delay).1.commands.set_max_distance.length =
      s.commands.set_max_distance.length ∧
    (transmitted (begin s _min _max _delay).2).getD 3 [] =
      (begin s _min _max _delay).1.commands.set_delay_time ∧
    (begin s _min _max _delay).1.commands.set_delay_time.getD PARAMETER_VALUE 0 = min _delay 30 ∧
    (∀ i, i ≠ PARAMETER_VALUE →
      (begin s _min _max _delay).1.commands.set_delay_time.getD i 0 =
        s.commands.set_delay_time.getD i 0) ∧
    (begin s _min _max _delay).1.commands.set_delay_time.length =
      s.commands.set_delay_time.length ∧
    (begin s _min _max _delay).1.commands.set_min_distance = s.commands.set_min_distance ∧
    (begin s _min _max _delay).1.min_detection_distance = min _min 15 ∧
    (∀ other, transmitted (begin s other _max _delay).2 =
      transmitted (begin s _min _max _delay).2) := by
  have _ := hmin
  have _ := hmax
  have _ := hdelay
  have hmindist : (begin s _min _max _delay).1.min_detection_distance = min _min 15 := by
    simp only [begin, clamp_eq_min]
  rw [begin_transmitted, begin_commands]
  refine ⟨rfl, getD_set_same _ _ _ hlmax, fun i hi => getD_set_other _ _ _ _ hi,
    List.length_set _ _ _, rfl, getD_set_same _ _ _ hldelay,
    fun i hi => getD_set_other _ _ _ _ hi, List.length_set _ _ _, rfl, hmindist, ?_⟩
  intro other
  rw [begin_transmitted]

/-- Witness of C12 at `begin(20, 3, 40)` on a freshly constructed object with
18-byte command arrays. -/
theorem begin_embeds_parameters_witness :
    (20 < 256 ∧ 3 < 256 ∧ 40 < 256 ∧
      PARAMETER_VALUE < freshDevice.commands.set_max_distance.length ∧
      PARAMETER_VALUE < freshDevice.commands.set_delay_time.length) ∧
    (begin freshDevice 20 3 40).1.commands.set_max_distance.getD PARAMETER_VALUE 0 = min 3 15 ∧
    (begin freshDevice 20 3 40).1.commands.set_delay_time.getD PARAMETER_VALUE 0 = min 40 30 ∧
    (begin freshDevice 20 3 40).1.commands.set_min_distance =
      freshDevice.commands.set_min_distance :=
  ⟨by decide,
    (begin_embeds_parameters freshDevice 20 3 40 (by decide) (by decide) (by decide)
      (by decide) (by decide)).2.1,
    (begin_embeds_parameters freshDevice 20 3 40 (by decide) (by decide) (by decide)
      (by decide) (by decide)).2.2.2.2.2.1,
    (begin_embeds_parameters freshDevice 20 3 40 (by decide) (by decide) (by decide)
      (by decide) (by decide)).2.2.2.2.2.2.2.2.1⟩

end Rd03

namespace Rd03

/-! ## Idle polls and the two edges of a cycle -/

theorem loop_stopped (sig : Signatures) (s : RD03) (sch : List (Option Nat))
    (h : s.start_reading = false) : loop sig s sch = (s, sch) := by
  cases sch with
  | nil => rfl
  | cons e rest => simp [loop, h]

theorem loop_cons_running (sig : Signatures) (s : RD03) (e : Option Nat)
    (rest : List (Option Nat)) (h : s.start_reading = true) :
    loop sig s (e :: rest) = loop sig (poll sig s e) rest := by
  simp [loop, h]

theorem loop_append_running (sig : Signatures) (s : RD03) (a b : List (Option Nat))
    (h : (loop sig s a).1.start_reading = true) :
    loop sig s (a ++ b) = loop sig (loop sig s a).1 b := by
  induction a generalizing s with
  | nil => rfl
  | cons e rest ih =>
    by_cases hs : s.start_reading = true
    · rw [loop_cons_running sig s e rest hs] at h ⊢
      rw [List.cons_append, loop_cons_running sig s e _ hs]
      exact ih _ h
    · have hs2 : s.start_reading = false := by simpa using hs
      rw [loop_stopped sig s _ hs2] at h
      simp [hs2] at h

/-- Polls that find no byte leave a running loop exactly where it was. -/
theorem loop_idle (sig : Signatures) (s : RD03) (n : Nat) (h : s.start_reading = true) :
    loop sig s (List.replicate n none) = (s, []) := by
  induction n with
  | zero => rfl
  | succ n ih =>
    rw [List.replicate_succ, loop_cons_running sig s none _ h]
    exact ih

/-- C13: `read()` has no timeout. Whenever the loop is running after a poll
schedule, any number `n` of further polls that find no byte available leave it
running, with `buffer`, `size`, `frame_start`, `someone` and `distance` (the
whole object) exactly as before those polls; in particular a call that never
gets a byte stays in its entry state for every `n`. -/
theorem read_has_no_timeout (sig : Signatures) (s : RD03) (sch : List (Option Nat))
    (n : Nat) (hrun : (read sig s sch).1.start_reading = true) :
    (read sig s (sch ++ List.replicate n none)).1.start_reading = true ∧
    (read sig s (sch ++ List.replicate n none)).1.serial_data.buffer =
      (read sig s sch).1.serial_data.buffer ∧
    (read sig s (sch ++ List.replicate n none)).1.serial_data.size =
      (read sig s sch).1.serial_data.size ∧
    (read sig s (sch ++ List.replicate n none)).1.serial_data.frame_start =
      (read sig s sch).1.serial_data.frame_start ∧
    (read sig s (sch ++ List.replicate n none)).1.someone = (read sig s sch).1.someone ∧
    (read sig s (sch ++ List.replicate n none)).1.distance = (read sig s sch).1.distance ∧
    (read sig s (sch ++ List.replicate n none)).1 = (read sig s sch).1 ∧
    (read sig s (sch ++ List.replicate n none)).2 = [] ∧
    read sig s (List.replicate n none) = (readEntry s, []) := by
  have hrun2 : (loop sig (readEntry s) sch).1.start_reading = true := hrun
  have h1 : read sig s (sch ++ List.replicate n none) = ((read sig s sch).1, []) := by
    show loop sig (readEntry s) (sch ++ List.replicate n none) = _
    rw [loop_append_running sig _ sch _ hrun2]
    exact loop_idle sig _ n hrun2
  have h2 : read sig s (List.replicate n none) = (readEntry s, []) :=
    loop_idle sig (readEntry s) n rfl
  rw [h1]
  exact ⟨hrun, rfl, rfl, rfl, rfl, rfl, rfl, rfl, h2⟩

/-- Witness of C13: three bytes of a header have arrived, then 1000 idle polls. -/
theorem read_has_no_timeout_witness :
    (read sampleSignatures freshDevice [some 0xF4, none, some 0xF3, some 0xF2]).1.start_reading
      = true ∧
    (read sampleSignatures freshDevice
      ([some 0xF4, none, some 0xF3, some 0xF2] ++ List.replicate 1000 none)).1 =
      (read sampleSignatures freshDevice [some 0xF4, none, some 0xF3, some 0xF2]).1 ∧
    (read sampleSignatures freshDevice
      ([some 0xF4, none, some 0xF3, some 0xF2] ++ List.replicate 1000 none)).1.start_reading
      = true :=
  ⟨by decide,
    (read_has_no_timeout sampleSignatures freshDevice [some 0xF4, none, some 0xF3, some 0xF2]
      1000 (by decide)).2.2.2.2.2.2.1,
    (read_has_no_timeout sampleSignatures freshDevice [some 0xF4, none, some 0xF3, some 0xF2]
      1000 (by decide)).1⟩

/-- C14: buffer and marker are reset on both edges of a decode cycle. For every
prior state `read()` enters its loop with `size = 0` and `frame_start = 0` (and
`start_reading` set), and for every poll schedule on which `read()` returns, the
object on return has `size = 0`, `frame_start = 0` and `start_reading = false`. -/
theorem read_resets_on_both_edges (sig : Signatures) (s : RD03) (sch : List (Option Nat)) :
    (read sig s sch = loop sig (readEntry s) sch ∧
      (readEntry s).serial_data.size = 0 ∧
      (readEntry s).serial_data.frame_start = 0 ∧
      (readEntry s).start_reading = true ∧
      (read sig s []).1.serial_data.size = 0 ∧
      (read sig s []).1.serial_data.frame_start = 0) ∧
    ((read sig s sch).1.start_reading = false →
      (read sig s sch).1.serial_data.size = 0 ∧
      (read sig s sch).1.serial_data.frame_start = 0 ∧
      (read sig s sch).1.start_reading = false) := by
  refine ⟨⟨rfl, rfl, rfl, rfl, rfl, rfl⟩, ?_⟩
  intro hret
  rw [read_fst] at hret ⊢
  obtain ⟨pre, c, _, h2, h3⟩ := feed_stops_split sig (readEntry s) (delivered sch) rfl hret
  have hstop : (onByte sig (feed sig (readEntry s) pre).1 c).start_reading = false := by
    rw [← h3]
    exact hret
  obtain ⟨hc, hT⟩ := onByte_stops sig _ c h2 hstop
  obtain ⟨g1, g2, g3, _, _, _⟩ := onByte_trailer_hit sig _ c hc hT
  rw [h3]
  exact ⟨g2, g3, g1⟩

set_option maxRecDepth 100000 in
/-- An instance of C14: the example frame with idle polls, on which `read()`
returns. -/
theorem read_resets_on_both_edges_witness :
    (read sampleSignatures freshDevice idleSchedule).1.start_reading = false ∧
    (read sampleSignatures freshDevice idleSchedule).1.serial_data.size = 0 ∧
    (read sampleSignatures freshDevice idleSchedule).1.serial_data.frame_start = 0 :=
  ⟨by decide,
    ((read_resets_on_both_edges sampleSignatures freshDevice idleSchedule).2 (by decide)).1,
    ((read_resets_on_both_edges sampleSignatures freshDevice idleSchedule).2 (by decide)).2.1⟩

end Rd03

namespace Rd03

/-! ## The distance window of `getSomeone` -/

theorem getD_lt_of_all_lt (l : List Nat) (i : Nat) (h : ∀ x ∈ l, x < 256) :
    l.getD i 0 < 256 := by
  by_cases hi : i < l.length
  · rw [List.getD_eq_getElem l 0 hi]
    exact h _ (List.getElem_mem hi)
  · rw [List.getD_eq_default l 0 (by omega)]
    decide

/-- One byte keeps every buffer entry and `distance` within 8 bits and leaves the
configured window alone. -/
theorem onByte_keeps_bytes (sig : Signatures) (s : RD03) (b : Nat)
    (hbuf : ∀ x ∈ s.serial_data.buffer, x < 256) (hd : s.distance < 256) :
    (∀ x ∈ (onByte sig s b).serial_data.buffer, x < 256) ∧
    (onByte sig s b).distance < 256 ∧
    (onByte sig s b).min_detection_distance = s.min_detection_distance ∧
    (onByte sig s b).max_detection_distance = s.max_detection_distance := by
  have hset : ∀ x ∈ (appendByte s.serial_data (b % 256)).buffer, x < 256 := by
    intro x hx
    rcases List.mem_or_eq_of_mem_set hx with h | h
    · exact hbuf x h
    · rw [h]
      exact Nat.mod_lt _ (by decide)
  have hget : ∀ i, (appendByte s.serial_data (b % 256)).buffer.getD i 0 < 256 :=
    fun i => getD_lt_of_all_lt _ i hset
  unfold onByte
  simp only
  split_ifs <;> simp_all

theorem loop_keeps_bytes (sig : Signatures) (s : RD03) (sch : List (Option Nat))
    (hbuf : ∀ x ∈ s.serial_data.buffer, x < 256) (hd : s.distance < 256) :
    (loop sig s sch).1.distance < 256 ∧
    (loop sig s sch).1.min_detection_distance = s.min_detection_distance ∧
    (loop sig s sch).1.max_detection_distance = s.max_detection_distance := by
  induction sch generalizing s with
  | nil => exact ⟨hd, rfl, rfl⟩
  | cons e rest ih =>
    by_cases hs : s.start_reading = true
    · rw [loop_cons_running sig s e rest hs]
      cases e with
      | none => exact ih s hbuf hd
      | some b =>
        obtain ⟨k1, k2, k3, k4⟩ := onByte_keeps_bytes sig s b hbuf hd
        obtain ⟨j1, j2, j3⟩ := ih (onByte sig s b) k1 k2
        exact ⟨j1, j2.trans k3, j3.trans k4⟩
    · have hs2 : s.start_reading = false := by simpa using hs
      rw [loop_stopped sig s _ hs2]
      exact ⟨hd, rfl, rfl⟩

/-- C17: the unit mismatch. For every stored `someone` and 8-bit `distance`: with
`min_detection_distance >= 4` `getSomeone()` is false (`4 * 70 = 280` exceeds
every 8-bit distance); with `max_detection_distance >= 4` the upper bound holds
for every distance, so the result is decided by `someone` and the lower bound
alone; hence after `begin(20, 3, 40)` `getSomeone()` is false after every call
of `read()`, whatever was decoded. -/
theorem getSomeone_unit_mismatch (s : RD03)
    (hd : s.distance < 256) (hbuf : ∀ x ∈ s.serial_data.buffer, x < 256) :
    (4 ≤ s.min_detection_distance → getSomeone s = false) ∧
    (4 ≤ s.max_detection_distance →
      decide (s.distance ≤ s.max_detection_distance * 70) = true ∧
      getSomeone s =
        (decide (s.someone > 0) && decide (s.distance ≥ s.min_detection_distance * 70))) ∧
    (begin s 20 3 40).1.min_detection_distance = 15 ∧
    getSomeone (begin s 20 3 40).1 = false ∧
    (∀ sig sch, getSomeone (read sig (begin s 20 3 40).1 sch).1 = false) := by
  have hfalse : ∀ t : RD03, t.distance < 256 → 4 ≤ t.min_detection_distance →
      getSomeone t = false := by
    intro t ht hm
    unfold getSomeone
    have : ¬ (t.distance ≥ t.min_detection_distance * 70) := by omega
    simp [this]
  refine ⟨hfalse s hd, ?_, rfl, hfalse _ hd (by show 4 ≤ 15; decide), ?_⟩
  · intro hm
    have hle : s.distance ≤ s.max_detection_distance * 70 := by omega
    unfold getSomeone
    simp [hle]
  · intro sig sch
    obtain ⟨j1, j2, _⟩ := loop_keeps_bytes sig (readEntry (begin s 20 3 40).1) sch hbuf hd
    apply hfalse _ j1
    show 4 ≤ (loop sig (readEntry (begin s 20 3 40).1) sch).1.min_detection_distance
    rw [j2]
    show 4 ≤ 15
    decide

set_option maxRecDepth 100000 in
/-- Witness of C17: the freshly constructed object with a zeroed buffer. -/
theorem getSomeone_unit_mismatch_witness :
    (freshDevice.distance < 256 ∧ ∀ x ∈ freshDevice.serial_data.buffer, x < 256) ∧
    getSomeone (begin freshDevice 20 3 40).1 = false ∧
    getSomeone (read sampleSignatures (begin freshDevice 20 3 40).1
      (backToBack (exampleFrame sampleSignatures 0 0))).1 = false :=
  ⟨⟨by decide, by decide⟩,
    (getSomeone_unit_mismatch freshDevice (by decide) (by decide)).2.2.2.1,
    (getSomeone_unit_mismatch freshDevice (by decide) (by decide)).2.2.2.2
      sampleSignatures (backToBack (exampleFrame sampleSignatures 0 0))⟩

end Rd03

namespace Rd03

/-! ## Completion for streams of any length -/

theorem completesAt_append (sig : Signatures) (l r : List Nat) (p : Nat)
    (hp : p ≤ l.length) :
    completesAt sig (l ++ r) p = completesAt sig l p := by
  unfold completesAt
  rw [trailerEndsAt_append sig l r p hp]
  by_cases h1 : 1 ≤ p
  · rw [List.getD_append l r 0 (p - 1) (by omega)]
  · simp [h1]

theorem bufferTracks_entry (s : RD03) (hlen : s.serial_data.buffer.length = 512) :
    BufferTracks (readEntry s).serial_data [] := by
  refine ⟨rfl, hlen, ?_⟩
  intro j hj
  exact absurd hj (Nat.not_lt_zero j)

/-- Storing one more byte keeps the buffer following the stream. -/
theorem bufferTracks_appendByte (sd : serial_buffer_struct) (l : List Nat) (a : Nat)
    (h : BufferTracks sd l) :
    BufferTracks (appendByte sd a) (l ++ [a]) := by
  obtain ⟨hsz, hlen, hget⟩ := h
  have hszlt : sd.size < 256 := by
    rw [hsz]
    exact Nat.mod_lt _ (by decide)
  have hszle : sd.size ≤ l.length := by
    rw [hsz]
    exact Nat.mod_le _ _
  refine ⟨?_, ?_, ?_⟩
  · show (sd.size + 1) % 256 = (l ++ [a]).length % 256
    rw [List.length_append, List.length_singleton, hsz]
    omega
  · show (sd.buffer.set sd.size a).length = 512
    rw [List.length_set]
    exact hlen
  · intro j hj
    have hj2 : j < (sd.size + 1) % 256 := hj
    show (sd.buffer.set sd.size a).getD j 0 =
      (l ++ [a]).getD ((l ++ [a]).length - (sd.size + 1) % 256 + j) 0
    have hne : sd.size ≠ 255 := by
      intro h255
      rw [h255] at hj2
      simp at hj2
    have hmod : (sd.size + 1) % 256 = sd.size + 1 := by omega
    rw [hmod] at hj2 ⊢
    rw [List.length_append, List.length_singleton]
    by_cases hjs : j = sd.size
    · rw [hjs, getD_set_same _ _ _ (by omega)]
      have : l.length + 1 - (sd.size + 1) + sd.size = l.length := by omega
      rw [this, getD_snoc_last]
    · rw [getD_set_other _ _ _ _ hjs, hget j (by omega),
        List.getD_append l [a] 0 _ (by omega)]
      congr 1
      omega

/-- When the buffer follows the stream, the condition of line 142 is a
condition on the stream. -/
theorem trailerMatch_of_tracks (sig : Signatures) (sd : serial_buffer_struct)
    (x : List Nat) (hH : sig.FRAME_HEADER.length = 4) (hE : sig.FRAME_END.length = 4)
    (h : BufferTracks sd x) :
    trailerMatch sig sd = (decide (13 ≤ x.length % 256) && trailerEndsAt sig x x.length) := by
  obtain ⟨hsz, _, hget⟩ := h
  have hfe : fe_size sig = 4 := by simp [fe_size, hE]
  have hmin : min_packet_size sig = 13 := by simp [min_packet_size, fe_size, hH, hE]
  have hszle : sd.size ≤ x.length := by
    rw [hsz]
    exact Nat.mod_le _ _
  unfold trailerMatch trailerEndsAt
  rw [hfe, hmin]
  by_cases h13 : 13 ≤ sd.size
  · have h13b : 13 ≤ x.length % 256 := by rw [← hsz]; exact h13
    have hm : memcmpEq sd.buffer (sd.size - 4) sig.FRAME_END 4 =
        memcmpEq x (x.length - 4) sig.FRAME_END 4 := by
      rw [Bool.eq_iff_iff, memcmpEq_iff, memcmpEq_iff]
      constructor
      · intro k i hi
        rw [← k i hi, hget (sd.size - 4 + i) (by omega)]
        congr 1
        omega
      · intro k i hi
        rw [← k i hi, hget (sd.size - 4 + i) (by omega)]
        congr 1
        omega
    rw [hm]
    have h4 : 4 ≤ x.length := by omega
    simp [h13, h13b, h4]
  · have h13b : ¬ 13 ≤ x.length % 256 := by rw [← hsz]; exact h13
    simp [h13, h13b]

/-- A byte that does not end the cycle keeps the loop running on the buffer with
the byte stored. -/
theorem onByte_no_hit (sig : Signatures) (s : RD03) (b : Nat)
    (h : b % 256 ≠ FE_LAST ∨ trailerMatch sig (appendByte s.serial_data (b % 256)) = false) :
    (onByte sig s b).start_reading = s.start_reading ∧
    (onByte sig s b).serial_data.buffer = (appendByte s.serial_data (b % 256)).buffer ∧
    (onByte sig s b).serial_data.size = (appendByte s.serial_data (b % 256)).size := by
  have hT : b % 256 = FE_LAST →
      trailerMatch sig (appendByte s.serial_data (b % 256)) = false := by
    intro h3
    rcases h with h | h
    · exact absurd h3 h
    · exact h
  unfold onByte
  simp only
  split_ifs with h1 h2 h3 h4 h5
  · exact ⟨rfl, rfl, rfl⟩
  · exact ⟨rfl, rfl, rfl⟩
  · rw [hT h3] at h4
    cases h4
  · rw [hT h3] at h4
    cases h4
  · exact ⟨rfl, rfl, rfl⟩
  · exact ⟨rfl, rfl, rfl⟩

theorem bufferTracks_congr (sd sd2 : serial_buffer_struct) (x : List Nat)
    (hb : sd2.buffer = sd.buffer) (hs : sd2.size = sd.size) (h : BufferTracks sd x) :
    BufferTracks sd2 x := by
  unfold BufferTracks at h ⊢
  rw [hb, hs]
  exact h

theorem completesAt_last (sig : Signatures) (l : List Nat) (a : Nat) :
    completesAt sig (l ++ [a]) (l.length + 1) =
      ((a == FE_LAST) && decide (13 ≤ (l.length + 1) % 256) &&
        trailerEndsAt sig (l ++ [a]) (l.length + 1)) := by
  unfold completesAt
  rw [Nat.add_sub_cancel, getD_snoc_last]
  simp

/-- As long as no position of the stream completes the cycle, the loop is
running and the buffer follows the stream, however long the stream is. -/
theorem feed_tracks (sig : Signatures) (s : RD03) (bs : List Nat)
    (hH : sig.FRAME_HEADER.length = 4) (hE : sig.FRAME_END.length = 4)
    (hlen : s.serial_data.buffer.length = 512)
    (hb : ∀ b ∈ bs, b < 256)
    (hnc : ∀ p, p ≤ bs.length → completesAt sig bs p = false) :
    (feed sig (readEntry s) bs).1.start_reading = true ∧
    BufferTracks (feed sig (readEntry s) bs).1.serial_data bs := by
  induction bs using List.reverseRecOn with
  | nil => exact ⟨rfl, bufferTracks_entry s hlen⟩
  | append_singleton l a ih =>
    have ha : a < 256 := hb a (List.mem_append_right _ (List.mem_singleton_self a))
    have hmod : a % 256 = a := Nat.mod_eq_of_lt ha
    obtain ⟨hrun, htr⟩ := ih (fun b hb2 => hb b (List.mem_append_left _ hb2))
      (fun p hp => by
        have := hnc p (by rw [List.length_append]; omega)
        rw [completesAt_append sig l [a] p hp] at this
        exact this)
    have htr2 := bufferTracks_appendByte _ l a htr
    have hlast := hnc (l.length + 1) (by rw [List.length_append, List.length_singleton])
    rw [completesAt_last] at hlast
    have hTM := trailerMatch_of_tracks sig _ (l ++ [a]) hH hE htr2
    rw [List.length_append, List.length_singleton] at hTM
    have hcond : a % 256 ≠ FE_LAST ∨
        trailerMatch sig (appendByte (feed sig (readEntry s) l).1.serial_data (a % 256))
          = false := by
      rw [hmod]
      by_cases hF : a = FE_LAST
      · right
        rw [hTM]
        simpa [hF] using hlast
      · left
        exact hF
    obtain ⟨k1, k2, k3⟩ := onByte_no_hit sig (feed sig (readEntry s) l).1 a hcond
    rw [hmod] at k2 k3
    rw [feed_append_running sig _ l [a] hrun, feed_cons_running sig _ a [] hrun]
    refine ⟨?_, ?_⟩
    · show (onByte sig (feed sig (readEntry s) l).1 a).start_reading = true
      rw [k1]
      exact hrun
    · exact bufferTracks_congr _ _ _ k2 k3 htr2

end Rd03

namespace Rd03

/-- The loop ends on the first position of the stream that completes the cycle,
and not before. -/
theorem feed_returns_at_first_completion (sig : Signatures) (s : RD03) (bs : List Nat)
    (hH : sig.FRAME_HEADER.length = 4) (hE : sig.FRAME_END.length = 4)
    (hlen : s.serial_data.buffer.length = 512)
    (hb : ∀ b ∈ bs, b < 256) (q : Nat)
    (hq : completesAt sig bs q = true) (hfirst : ∀ p, p < q → completesAt sig bs p = false) :
    (feed sig (readEntry s) bs).1.start_reading = false ∧
    (feed sig (readEntry s) bs).2 = bs.drop q ∧
    (feed sig (readEntry s) (bs.take (q - 1))).1.start_reading = true := by
  have hq1 : 1 ≤ q := by
    unfold completesAt at hq
    simp only [Bool.and_eq_true, decide_eq_true_eq] at hq
    exact hq.1.1.1
  have hqlen : q ≤ bs.length := by
    unfold completesAt trailerEndsAt at hq
    simp only [Bool.and_eq_true, decide_eq_true_eq] at hq
    exact hq.2.1.2
  obtain ⟨hsplit, htake, hlenl⟩ := stream_split bs q hq1 hqlen
  have hq2 : (bs.take (q - 1)).length + 1 = q := by omega
  have hsplit2 : bs = (bs.take (q - 1) ++ [bs.getD (q - 1) 0]) ++ bs.drop q := by
    rw [List.append_assoc]
    exact hsplit
  obtain ⟨hrun, htr⟩ := feed_tracks sig s (bs.take (q - 1)) hH hE hlen
    (fun b hb2 => hb b (List.mem_of_mem_take hb2))
    (fun p hp => by
      rw [← completesAt_append sig (bs.take (q - 1)) (bs.getD (q - 1) 0 :: bs.drop q) p hp,
        ← hsplit]
      exact hfirst p (by omega))
  have hc256 : bs.getD (q - 1) 0 < 256 := by
    rw [List.getD_eq_getElem bs 0 (by omega)]
    exact hb _ (List.getElem_mem _)
  have hmod : bs.getD (q - 1) 0 % 256 = bs.getD (q - 1) 0 := Nat.mod_eq_of_lt hc256
  have hlast : completesAt sig (bs.take (q - 1) ++ [bs.getD (q - 1) 0])
      ((bs.take (q - 1)).length + 1) = true := by
    rw [← completesAt_append sig _ (bs.drop q) _ (by simp), ← hsplit2, hq2]
    exact hq
  rw [completesAt_last] at hlast
  simp only [Bool.and_eq_true, beq_iff_eq, decide_eq_true_eq] at hlast
  obtain ⟨⟨hcF, h13⟩, hT⟩ := hlast
  have htr2 := bufferTracks_appendByte _ (bs.take (q - 1)) (bs.getD (q - 1) 0) htr
  have hTM := trailerMatch_of_tracks sig _ _ hH hE htr2
  rw [List.length_append, List.length_singleton, hT] at hTM
  have hTM2 : trailerMatch sig (appendByte (feed sig (readEntry s) (bs.take (q - 1))).1.serial_data
      (bs.getD (q - 1) 0 % 256)) = true := by
    rw [hmod, hTM, decide_eq_true h13]
    rfl
  have hstop := (onByte_trailer_hit sig (feed sig (readEntry s) (bs.take (q - 1))).1
    (bs.getD (q - 1) 0) (by rw [hmod]; exact hcF) hTM2).1
  have hfeed := feed_hit sig (readEntry s) (bs.take (q - 1)) (bs.drop q) (bs.getD (q - 1) 0)
    hrun hstop
  rw [← hsplit] at hfeed
  rw [hfeed]
  exact ⟨hstop, rfl, hrun⟩

set_option maxRecDepth 1000000 in
set_option maxHeartbeats 4000000 in
/-- The count that decides is the 8-bit one: a trailer ending at position 264
(count 8) does not end the cycle, a trailer ending at position 269 (count 13)
does. -/
theorem completion_counts_modulo_256 :
    trailerEndsAt sampleSignatures (trailerAfterWrap.drop 5) 264 = true ∧
    (read sampleSignatures freshDevice
      (backToBack (trailerAfterWrap.drop 5))).1.start_reading = true ∧
    trailerEndsAt sampleSignatures trailerAfterWrap 269 = true ∧
    completesAt sampleSignatures trailerAfterWrap 269 = true ∧
    (read sampleSignatures freshDevice (backToBack trailerAfterWrap)).1.start_reading = false := by
  decide

end Rd03

namespace Rd03

/-! ## Buffer accesses -/

/-- One byte keeps the counter and the marker within 8 bits. -/
theorem onByte_keeps_small (sig : Signatures) (s : RD03) (b : Nat)
    (hfs : s.serial_data.frame_start < 256) :
    (onByte sig s b).serial_data.size < 256 ∧ (onByte sig s b).serial_data.frame_start < 256 := by
  have h1 : (s.serial_data.size + 1) % 256 < 256 := Nat.mod_lt _ (by decide)
  have h2 : ∀ x : Nat, x % 256 < 256 := fun x => Nat.mod_lt _ (by decide)
  unfold onByte
  simp only
  split_ifs <;> simp_all [appendByte]

/-- The accesses of one byte are within the claimed bounds when the counter and
the marker are 8-bit values. -/
theorem onByteAccesses_within (sig : Signatures) (s : RD03) (b : Nat)
    (hH : sig.FRAME_HEADER.length = 4) (hE : sig.FRAME_END.length = 4)
    (hsz : s.serial_data.size < 256) (hfs : s.serial_data.frame_start < 256) :
    ∀ a ∈ onByteAccesses sig s b, a.withinClaimed = true := by
  have hfh : fh_size sig = 4 := by simp [fh_size, hH]
  have hfe : fe_size sig = 4 := by simp [fe_size, hE]
  have hmin : min_packet_size sig = 13 := by simp [min_packet_size, fe_size, hH, hE]
  have hsz2 : (appendByte s.serial_data (b % 256)).size < 256 := Nat.mod_lt _ (by decide)
  have hfs2 : (appendByte s.serial_data (b % 256)).frame_start < 256 := hfs
  have hcmp : ∀ sz n : Nat, n ≤ sz → sz < 256 → 1 ≤ n →
      ∀ a ∈ memcmpAccesses sz n, a.withinClaimed = true := by
    intro sz n h1 h2 h3 a ha
    unfold memcmpAccesses at ha
    rw [List.mem_map] at ha
    obtain ⟨i, hi, rfl⟩ := ha
    rw [List.mem_range] at hi
    simp only [Access.withinClaimed, Bool.and_eq_true, decide_eq_true_eq]
    omega
  have hrec : ∀ a ∈
      [Access.recheck (((appendByte s.serial_data (b % 256)).frame_start : Int) + (FH_0 : Int)),
       Access.recheck (((appendByte s.serial_data (b % 256)).frame_start : Int) + (FH_1 : Int)),
       Access.recheck (((appendByte s.serial_data (b % 256)).frame_start : Int) + (FH_2 : Int)),
       Access.recheck (((appendByte s.serial_data (b % 256)).frame_start : Int) + 3)],
      a.withinClaimed = true := by
    intro a ha
    simp only [List.mem_cons, List.mem_singleton, List.not_mem_nil, or_false] at ha
    rcases ha with rfl | rfl | rfl | rfl <;>
      simp only [Access.withinClaimed, Bool.and_eq_true, decide_eq_true_eq, FH_0, FH_1, FH_2] <;>
      omega
  have hext : ∀ a ∈
      [Access.extract (((appendByte s.serial_data (b % 256)).frame_start : Int) + (SOMEONE : Int)),
       Access.extract (((appendByte s.serial_data (b % 256)).frame_start : Int) +
        (TARGET_RANGE_0 : Int))],
      a.withinClaimed = true := by
    intro a ha
    simp only [List.mem_cons, List.mem_singleton, List.not_mem_nil, or_false] at ha
    rcases ha with rfl | rfl <;>
      simp only [Access.withinClaimed, Bool.and_eq_true, decide_eq_true_eq, SOMEONE,
        TARGET_RANGE_0] <;>
      omega
  intro a ha
  unfold onByteAccesses at ha
  simp only [List.mem_cons] at ha
  rcases ha with rfl | ha
  · simp only [Access.withinClaimed, Bool.and_eq_true, decide_eq_true_eq]
    omega
  · rw [hfh, hfe, hmin] at ha
    by_cases k1 : b % 256 = FH_LAST
    · rw [if_pos k1] at ha
      by_cases k2 : (appendByte s.serial_data (b % 256)).size ≥ 4
      · rw [if_pos k2] at ha
        exact hcmp _ 4 k2 hsz2 (by decide) a ha
      · rw [if_neg k2] at ha
        cases ha
    · rw [if_neg k1] at ha
      by_cases k3 : b % 256 = FE_LAST
      · rw [if_pos k3, List.mem_append] at ha
        rcases ha with ha | ha
        · by_cases k4 : (appendByte s.serial_data (b % 256)).size ≥ 13
          · rw [if_pos k4] at ha
            exact hcmp _ 4 (by omega) hsz2 (by decide) a ha
          · rw [if_neg k4] at ha
            cases ha
        · by_cases k5 : trailerMatch sig (appendByte s.serial_data (b % 256)) = true
          · rw [if_pos k5, List.mem_append] at ha
            rcases ha with ha | ha
            · exact hrec a ha
            · by_cases k6 : headerRecheck sig (appendByte s.serial_data (b % 256)) = true
              · rw [if_pos k6] at ha
                exact hext a ha
              · rw [if_neg k6] at ha
                cases ha
          · rw [if_neg k5] at ha
            cases ha
      · rw [if_neg k3] at ha
        cases ha

end Rd03

namespace Rd03

theorem loopAccesses_within (sig : Signatures) (s : RD03) (sch : List (Option Nat))
    (hH : sig.FRAME_HEADER.length = 4) (hE : sig.FRAME_END.length = 4)
    (hsz : s.serial_data.size < 256) (hfs : s.serial_data.frame_start < 256) :
    ∀ a ∈ loopAccesses sig s sch, a.withinClaimed = true := by
  induction sch generalizing s with
  | nil =>
    intro a ha
    cases ha
  | cons e rest ih =>
    intro a ha
    cases e with
    | none =>
      unfold loopAccesses at ha
      by_cases hs : s.start_reading = true
      · rw [if_pos hs] at ha
        exact ih s hsz hfs a ha
      · rw [if_neg hs] at ha
        cases ha
    | some b =>
      unfold loopAccesses at ha
      by_cases hs : s.start_reading = true
      · rw [if_pos hs, List.mem_append] at ha
        rcases ha with ha | ha
        · exact onByteAccesses_within sig s b hH hE hsz hfs a ha
        · obtain ⟨k1, k2⟩ := onByte_keeps_small sig s b hfs
          exact ih (onByte sig s b) k1 k2 a ha
      · rw [if_neg hs] at ha
        cases ha

/-- C15: every buffer access of `read()` is in bounds, for every prior state and
every poll schedule of any length. Every store index is within `0..255`, every
index read by the header and trailer comparisons within `0..254` (in particular
the offsets `size - 4` are not negative), and the re-check and field reads at
`frame_start + 0..7` within `0..262`; all are below the capacity of 512. -/
theorem read_accesses_in_bounds (sig : Signatures) (s : RD03) (sch : List (Option Nat))
    (hH : sig.FRAME_HEADER.length = 4) (hE : sig.FRAME_END.length = 4) :
    (∀ i, Access.store i ∈ readAccesses sig s sch → 0 ≤ i ∧ i ≤ 255) ∧
    (∀ i, Access.compare i ∈ readAccesses sig s sch → 0 ≤ i ∧ i ≤ 254) ∧
    (∀ i, Access.recheck i ∈ readAccesses sig s sch → 0 ≤ i ∧ i ≤ 262) ∧
    (∀ i, Access.extract i ∈ readAccesses sig s sch → 0 ≤ i ∧ i ≤ 262) ∧
    (∀ a ∈ readAccesses sig s sch, 0 ≤ a.index ∧ a.index < (BUFFER_CAPACITY : Int)) := by
  have hall := loopAccesses_within sig (readEntry s) sch hH hE
    (by show 0 < 256; decide) (by show 0 < 256; decide)
  refine ⟨?_, ?_, ?_, ?_, ?_⟩
  · intro i hi
    have := hall _ hi
    simpa [Access.withinClaimed] using this
  · intro i hi
    have := hall _ hi
    simpa [Access.withinClaimed] using this
  · intro i hi
    have := hall _ hi
    simpa [Access.withinClaimed] using this
  · intro i hi
    have := hall _ hi
    simpa [Access.withinClaimed] using this
  · intro a ha
    have := hall a ha
    cases a <;>
      simp only [Access.withinClaimed, Bool.and_eq_true, decide_eq_true_eq] at this <;>
      simp only [Access.index, BUFFER_CAPACITY] <;> omega

set_option maxRecDepth 100000 in
/-- Witness of C15: the accesses of `read()` on the example frame include the
store at index 12, the comparison at index 9 and the field read at index 7. -/
theorem read_accesses_in_bounds_witness :
    (sampleSignatures.FRAME_HEADER.length = 4 ∧ sampleSignatures.FRAME_END.length = 4) ∧
    Access.store 12 ∈ readAccesses sampleSignatures freshDevice
      (backToBack (exampleFrame sampleSignatures 0 0)) ∧
    Access.compare 9 ∈ readAccesses sampleSignatures freshDevice
      (backToBack (exampleFrame sampleSignatures 0 0)) ∧
    Access.extract 7 ∈ readAccesses sampleSignatures freshDevice
      (backToBack (exampleFrame sampleSignatures 0 0)) ∧
    ((0 : Int) ≤ 7 ∧ (7 : Int) ≤ 262) :=
  ⟨⟨rfl, rfl⟩, by decide, by decide, by decide,
    (read_accesses_in_bounds sampleSignatures freshDevice
      (backToBack (exampleFrame sampleSignatures 0 0)) rfl rfl).2.2.2.1 7 (by decide)⟩

end Rd03

namespace Rd03

/-! ## Reads within the first 255 bytes of a call -/

theorem lastHeaderStart_cases (sig : Signatures) (bs : List Nat) (n : Nat) :
    lastHeaderStart sig bs n = 0 ∨
    ∃ p2, p2 ≤ n ∧ headerEndsAt sig bs p2 = true ∧
      lastHeaderStart sig bs n = p2 - fh_size sig := by
  induction n with
  | zero => exact Or.inl rfl
  | succ n ih =>
    by_cases h : headerEndsAt sig bs (n + 1) = true
    · right
      refine ⟨n + 1, Nat.le_refl _, h, ?_⟩
      simp [lastHeaderStart, h]
    · have h2 : headerEndsAt sig bs (n + 1) = false := by simpa using h
      rw [lastHeaderStart_no_header sig bs n h2]
      rcases ih with ih | ⟨p2, hp, hh, heq⟩
      · exact Or.inl ih
      · exact Or.inr ⟨p2, by omega, hh, heq⟩

/-- When the trailer signature ends with the byte just received and contains
`0xF1` at most as its last byte, the last header before it lies at least seven
bytes back: offsets 0 to 7 from the marker are inside the stream. -/
theorem lastHeaderStart_room (sig : Signatures) (l : List Nat) (a : Nat)
    (hH : sig.FRAME_HEADER.length = 4) (hE : sig.FRAME_END.length = 4)
    (hH3 : sig.FRAME_HEADER.getD 3 0 = FH_LAST)
    (hEF : ∀ i, i < 3 → sig.FRAME_END.getD i 0 ≠ FH_LAST)
    (h13 : 13 ≤ l.length + 1)
    (hT : trailerEndsAt sig (l ++ [a]) (l.length + 1) = true) :
    lastHeaderStart sig l l.length + 7 ≤ l.length := by
  have hfh : fh_size sig = 4 := by simp [fh_size, hH]
  have hfe : fe_size sig = 4 := by simp [fe_size, hE]
  rcases lastHeaderStart_cases sig l l.length with h0 | ⟨p2, hp, hh, heq⟩
  · rw [h0]
    omega
  · rw [heq, hfh]
    by_contra hcon
    have hp4 : 4 ≤ p2 := by
      unfold headerEndsAt at hh
      rw [hfh] at hh
      simp only [Bool.and_eq_true, decide_eq_true_eq] at hh
      exact hh.1.1
    have hF1 : l.getD (p2 - 1) 0 = FH_LAST := headerEndsAt_last sig l p2 hH hH3 hh
    unfold trailerEndsAt at hT
    rw [hfe] at hT
    simp only [Bool.and_eq_true, decide_eq_true_eq] at hT
    have hm := (memcmpEq_iff _ _ _ _).mp hT.2 (p2 + 2 - l.length) (by omega)
    have hidx : l.length + 1 - 4 + (p2 + 2 - l.length) = p2 - 1 := by omega
    rw [hidx, List.getD_append l [a] 0 _ (by omega), hF1] at hm
    exact hEF (p2 + 2 - l.length) (by omega) hm.symm

/-- The re-check and the two field reads only look at the first `fs + 8` buffer
entries. -/
theorem recheck_reads_front (sig : Signatures) (x rest : List Nat) (sz fs : Nat)
    (h : fs + 7 < x.length) :
    headerRecheck sig { buffer := x ++ rest, size := sz, frame_start := fs } =
      headerRecheck sig { buffer := x, size := sz, frame_start := fs } ∧
    (x ++ rest).getD (fs + SOMEONE) 0 = x.getD (fs + SOMEONE) 0 ∧
    (x ++ rest).getD (fs + TARGET_RANGE_0) 0 = x.getD (fs + TARGET_RANGE_0) 0 := by
  unfold headerRecheck
  simp only [FH_0, FH_1, FH_2, SOMEONE, TARGET_RANGE_0]
  rw [List.getD_append x rest 0 _ (by omega), List.getD_append x rest 0 _ (by omega),
    List.getD_append x rest 0 _ (by omega), List.getD_append x rest 0 _ (by omega),
    List.getD_append x rest 0 _ (by omega), List.getD_append x rest 0 _ (by omega)]
  exact ⟨rfl, rfl, rfl⟩

/-- A running loop has met no completing position, whatever the length of the
stream. -/
theorem no_completion_of_running (sig : Signatures) (s : RD03) (bs : List Nat)
    (hH : sig.FRAME_HEADER.length = 4) (hE : sig.FRAME_END.length = 4)
    (hlen : s.serial_data.buffer.length = 512)
    (hb : ∀ b ∈ bs, b < 256)
    (hrun : (feed sig (readEntry s) bs).1.start_reading = true) :
    ∀ p, completesAt sig bs p = false := by
  by_contra hcon
  have hex : ∃ p, completesAt sig bs p = true := by
    by_contra hno
    apply hcon
    intro p
    by_contra hp
    exact hno ⟨p, by simpa using hp⟩
  have hq := Nat.find_spec hex
  have hmin : ∀ p, p < Nat.find hex → completesAt sig bs p = false := by
    intro p hp
    have := Nat.find_min hex hp
    simpa using this
  have := (feed_returns_at_first_completion sig s bs hH hE hlen hb _ hq hmin).1
  rw [hrun] at this
  cases this

/-- A loop that has ended has met a first completing position. -/
theorem first_completion_of_return (sig : Signatures) (s : RD03) (bs : List Nat)
    (hH : sig.FRAME_HEADER.length = 4) (hE : sig.FRAME_END.length = 4)
    (hlen : s.serial_data.buffer.length = 512)
    (hb : ∀ b ∈ bs, b < 256)
    (hret : (feed sig (readEntry s) bs).1.start_reading = false) :
    ∃ q, completesAt sig bs q = true ∧ ∀ p, p < q → completesAt sig bs p = false := by
  have hex : ∃ p, completesAt sig bs p = true := by
    by_contra hno
    have hall : ∀ p, p ≤ bs.length → completesAt sig bs p = false := by
      intro p _
      by_contra hp
      exact hno ⟨p, by simpa using hp⟩
    have := (feed_tracks sig s bs hH hE hlen hb hall).1
    rw [hret] at this
    cases this
  refine ⟨Nat.find hex, Nat.find_spec hex, ?_⟩
  intro p hp
  have := Nat.find_min hex hp
  simpa using this

/-- Within 255 bytes a position that does not complete the cycle is, from 13 on,
a position where no trailer signature ends. -/
theorem no_trailer_of_no_completion (sig : Signatures) (bs : List Nat) (p : Nat)
    (hE : sig.FRAME_END.length = 4) (hE3 : sig.FRAME_END.getD 3 0 = FE_LAST)
    (h13 : 13 ≤ p) (h255 : p ≤ 255) (h : completesAt sig bs p = false) :
    trailerEndsAt sig bs p = false := by
  by_contra hcon
  have hT : trailerEndsAt sig bs p = true := by simpa using hcon
  have hF := trailerEndsAt_last sig bs p hE hE3 hT
  have hmod : p % 256 = p := by omega
  unfold completesAt at h
  rw [hT, hF, hmod] at h
  have h1 : 1 ≤ p := by omega
  simp [h1, h13] at h

end Rd03

namespace Rd03

theorem feed_append_stopped (sig : Signatures) (s : RD03) (pre more : List Nat)
    (h : (feed sig s pre).1.start_reading = false) :
    feed sig s (pre ++ more) = ((feed sig s pre).1, (feed sig s pre).2 ++ more) := by
  induction pre generalizing s with
  | nil =>
    have hs : s.start_reading = false := h
    rw [List.nil_append, feed_stopped sig s more hs]
    rfl
  | cons b bs ih =>
    by_cases hs : s.start_reading = true
    · rw [feed_cons_running sig s b bs hs] at h ⊢
      rw [List.cons_append, feed_cons_running sig s b _ hs]
      exact ih _ h
    · have hs2 : s.start_reading = false := by simpa using hs
      rw [feed_stopped sig s _ hs2, feed_stopped sig s _ hs2]

/-- A cycle that completes at a position `q ≤ 255`: the reading afterwards is
what the first `q` bytes of the stream decide, or the reading from before the
call; the buffer left by earlier calls does not enter. -/
theorem feed_short_result (sig : Signatures) (s : RD03) (bs : List Nat) (q : Nat)
    (hH : sig.FRAME_HEADER.length = 4) (hE : sig.FRAME_END.length = 4)
    (hH3 : sig.FRAME_HEADER.getD 3 0 = FH_LAST) (hE3 : sig.FRAME_END.getD 3 0 = FE_LAST)
    (hEF : ∀ i, i < 3 → sig.FRAME_END.getD i 0 ≠ FH_LAST)
    (hlen : s.serial_data.buffer.length = 512)
    (hb : ∀ b ∈ bs, b < 256) (hq255 : q ≤ 255)
    (hq : completesAt sig bs q = true) (hfirst : ∀ p, p < q → completesAt sig bs p = false) :
    (feed sig (readEntry s) bs).1.start_reading = false ∧
    (feed sig (readEntry s) bs).2 = bs.drop q ∧
    (feed sig (readEntry s) bs).1.someone =
      (match streamReading sig bs q with
        | some r => r.1
        | none => s.someone) ∧
    (feed sig (readEntry s) bs).1.distance =
      (match streamReading sig bs q with
        | some r => r.2
        | none => s.distance) := by
  have hq' := hq
  unfold completesAt at hq'
  simp only [Bool.and_eq_true, decide_eq_true_eq, beq_iff_eq] at hq'
  obtain ⟨⟨⟨hq1, _⟩, h13m⟩, hTq⟩ := hq'
  have h13 : 13 ≤ q := by omega
  have hqlen : q ≤ bs.length := by
    unfold trailerEndsAt at hTq
    simp only [Bool.and_eq_true, decide_eq_true_eq] at hTq
    exact hTq.1.2
  obtain ⟨hsplit, htake, hlenl⟩ := stream_split bs q hq1 hqlen
  have hq2 : (bs.take (q - 1)).length + 1 = q := by omega
  have hsplit2 : bs = (bs.take (q - 1) ++ [bs.getD (q - 1) 0]) ++ bs.drop q := by
    rw [List.append_assoc]
    exact hsplit
  have hT : trailerEndsAt sig (bs.take (q - 1) ++ [bs.getD (q - 1) 0])
      ((bs.take (q - 1)).length + 1) = true := by
    rw [← trailerEndsAt_append sig _ (bs.drop q) _ (by simp), ← hsplit2, hq2]
    exact hTq
  obtain ⟨hfeed, hc, hTM, hsd⟩ := feed_complete sig s (bs.take (q - 1)) (bs.getD (q - 1) 0)
    (bs.drop q) hH hE hH3 hE3 hlen (by omega)
    (fun b hb2 => hb b (List.mem_of_mem_take hb2)) (by omega) hT
    (fun p hp13 hp => by
      rw [← trailerEndsAt_append sig (bs.take (q - 1)) (bs.getD (q - 1) 0 :: bs.drop q) p hp,
        ← hsplit]
      exact no_trailer_of_no_completion sig bs p hE hE3 hp13 (by omega) (hfirst p (by omega)))
  rw [← hsplit] at hfeed
  have hroom := lastHeaderStart_room sig (bs.take (q - 1)) (bs.getD (q - 1) 0) hH hE hH3 hEF
    (by omega) hT
  have hfs : lastHeaderStart sig (bs.take (q - 1)) (bs.take (q - 1)).length =
      lastHeaderStart sig bs (q - 1) := by
    rw [hlenl]
    conv_rhs => rw [hsplit]
    rw [lastHeaderStart_append sig _ _ _ (by omega)]
  rw [htake, hq2, hfs] at hsd
  rw [hlenl] at hroom hfs
  rw [hfs] at hroom
  have hcmod : bs.getD (q - 1) 0 % 256 = FE_LAST := by
    rw [hc]
    rfl
  obtain ⟨g1, _, _, _, hyes, hno⟩ := onByte_trailer_hit sig (afterBytes sig s (bs.take (q - 1)))
    (bs.getD (q - 1) 0) hcmod hTM
  rw [hsd] at hyes hno
  have hlt : (bs.take q).length = q := by
    rw [List.length_take]
    omega
  obtain ⟨r1, r2, r3⟩ := recheck_reads_front sig (bs.take q) (s.serial_data.buffer.drop q) q
    (lastHeaderStart sig bs (q - 1)) (by omega)
  rw [r1] at hyes hno
  rw [hfeed]
  refine ⟨g1, rfl, ?_, ?_⟩
  · unfold streamReading
    simp only
    by_cases hR : headerRecheck sig
        { buffer := bs.take q, size := q, frame_start := lastHeaderStart sig bs (q - 1) } = true
    · rw [if_pos hR]
      show (onByte sig _ _).someone = _
      rw [(hyes hR).1, r2]
    · have hR2 : headerRecheck sig
          { buffer := bs.take q, size := q, frame_start := lastHeaderStart sig bs (q - 1) }
            = false := by simpa using hR
      rw [if_neg hR]
      show (onByte sig _ _).someone = _
      rw [(hno hR2).1]
      rfl
  · unfold streamReading
    simp only
    by_cases hR : headerRecheck sig
        { buffer := bs.take q, size := q, frame_start := lastHeaderStart sig bs (q - 1) } = true
    · rw [if_pos hR]
      show (onByte sig _ _).distance = _
      rw [(hyes hR).2, r3]
    · have hR2 : headerRecheck sig
          { buffer := bs.take q, size := q, frame_start := lastHeaderStart sig bs (q - 1) }
            = false := by simpa using hR
      rw [if_neg hR]
      show (onByte sig _ _).distance = _
      rw [(hno hR2).2]
      rfl

end Rd03

namespace Rd03

/-- Within the first 255 bytes of a call, every read of the byte being processed
is at an index that was stored during this call. -/
theorem onByteAccesses_reads_stored (sig : Signatures) (s : RD03) (l : List Nat) (b : Nat)
    (hH : sig.FRAME_HEADER.length = 4) (hE : sig.FRAME_END.length = 4)
    (hH3 : sig.FRAME_HEADER.getD 3 0 = FH_LAST)
    (hEF : ∀ i, i < 3 → sig.FRAME_END.getD i 0 ≠ FH_LAST)
    (hlen : s.serial_data.buffer.length = 512) (hl : l.length ≤ 254) :
    ∀ a ∈ onByteAccesses sig (afterBytes sig s l) b,
      a.isRead = true → 0 ≤ a.index ∧ a.index ≤ (l.length : Int) := by
  have hfh : fh_size sig = 4 := by simp [fh_size, hH]
  have hfe : fe_size sig = 4 := by simp [fe_size, hE]
  have hmin : min_packet_size sig = 13 := by simp [min_packet_size, fe_size, hH, hE]
  have hsd := appendByte_afterBytes sig s l (b % 256) hlen hl
  have hsz : (appendByte (afterBytes sig s l).serial_data (b % 256)).size = l.length + 1 := by
    rw [hsd]
  have hfs : (appendByte (afterBytes sig s l).serial_data (b % 256)).frame_start =
      lastHeaderStart sig l l.length := by
    rw [hsd]
  have hTMeq := trailerMatch_afterBytes sig s l (b % 256) hlen hl hH hE
  have hcmp : 4 ≤ l.length + 1 → ∀ a ∈ memcmpAccesses (l.length + 1) 4,
      0 ≤ a.index ∧ a.index ≤ (l.length : Int) := by
    intro h4 a ha
    unfold memcmpAccesses at ha
    rw [List.mem_map] at ha
    obtain ⟨i, hi, rfl⟩ := ha
    rw [List.mem_range] at hi
    simp only [Access.index]
    omega
  intro a ha hread
  unfold onByteAccesses at ha
  simp only [List.mem_cons] at ha
  rcases ha with rfl | ha
  · cases hread
  · rw [hfh, hfe, hmin, hsz, hfs] at ha
    by_cases k1 : b % 256 = FH_LAST
    · rw [if_pos k1] at ha
      by_cases k2 : l.length + 1 ≥ 4
      · rw [if_pos k2] at ha
        exact hcmp k2 a ha
      · rw [if_neg k2] at ha
        cases ha
    · rw [if_neg k1] at ha
      by_cases k3 : b % 256 = FE_LAST
      · rw [if_pos k3, List.mem_append] at ha
        rcases ha with ha | ha
        · by_cases k4 : l.length + 1 ≥ 13
          · rw [if_pos k4] at ha
            exact hcmp (by omega) a ha
          · rw [if_neg k4] at ha
            cases ha
        · by_cases k5 : trailerMatch sig (appendByte (afterBytes sig s l).serial_data (b % 256))
              = true
          · have hk := k5
            rw [hTMeq] at hk
            simp only [Bool.and_eq_true, decide_eq_true_eq] at hk
            have hroom := lastHeaderStart_room sig l (b % 256) hH hE hH3 hEF hk.1 hk.2
            rw [if_pos k5, List.mem_append] at ha
            rcases ha with ha | ha
            · simp only [List.mem_cons, List.mem_singleton, List.not_mem_nil, or_false] at ha
              rcases ha with rfl | rfl | rfl | rfl <;>
                simp only [Access.index, FH_0, FH_1, FH_2] <;> omega
            · by_cases k6 : headerRecheck sig
                  (appendByte (afterBytes sig s l).serial_data (b % 256)) = true
              · rw [if_pos k6] at ha
                simp only [List.mem_cons, List.mem_singleton, List.not_mem_nil, or_false] at ha
                rcases ha with rfl | rfl <;>
                  simp only [Access.index, SOMEONE, TARGET_RANGE_0] <;> omega
              · rw [if_neg k6] at ha
                cases ha
          · rw [if_neg k5] at ha
            cases ha
      · rw [if_neg k3] at ha
        cases ha

/-- C18: no leak of stale bytes. Assume `FRAME_HEADER` ends in `0xF1`,
`FRAME_END` ends in `0xF5` and no other byte of `FRAME_END` is `0xF1`. For every
stream on which `read()` returns within the first 255 received bytes, a run
from a state that differs only in `serial_data` (buffer contents, `size`,
`frame_start` left by earlier calls) returns on the same byte with the same
`someone` and `distance`; the reading is what the stream alone decides or the
reading from before the call. Moreover, at every byte among the first 255 that
`read()` processes, every index it inspects or extracts lies in `0..k`, the
entries stored during the same call. -/
theorem no_stale_bytes (sig : Signatures) (s : RD03) (sd2 : serial_buffer_struct)
    (bs : List Nat)
    (hH : sig.FRAME_HEADER.length = 4) (hE : sig.FRAME_END.length = 4)
    (hH3 : sig.FRAME_HEADER.getD 3 0 = FH_LAST) (hE3 : sig.FRAME_END.getD 3 0 = FE_LAST)
    (hEF : ∀ i, i < 3 → sig.FRAME_END.getD i 0 ≠ FH_LAST)
    (hlen : s.serial_data.buffer.length = 512) (hlen2 : sd2.buffer.length = 512)
    (hb : ∀ b ∈ bs, b < 256)
    (hret : (read sig s (backToBack (bs.take 255))).1.start_reading = false) :
    (read sig s (backToBack bs)).1.start_reading = false ∧
    (read sig { s with serial_data := sd2 } (backToBack bs)).1.start_reading = false ∧
    (read sig { s with serial_data := sd2 } (backToBack bs)).2 = (read sig s (backToBack bs)).2 ∧
    (read sig { s with serial_data := sd2 } (backToBack bs)).1.someone =
      (read sig s (backToBack bs)).1.someone ∧
    (read sig { s with serial_data := sd2 } (backToBack bs)).1.distance =
      (read sig s (backToBack bs)).1.distance ∧
    (∃ q, q ≤ 255 ∧
      (read sig s (backToBack bs)).2 = backToBack (bs.drop q) ∧
      (read sig s (backToBack bs)).1.someone =
        (match streamReading sig (bs.take 255) q with
          | some r => r.1
          | none => s.someone) ∧
      (read sig s (backToBack bs)).1.distance =
        (match streamReading sig (bs.take 255) q with
          | some r => r.2
          | none => s.distance)) ∧
    (∀ k, k < 255 → k < bs.length →
      (read sig s (backToBack (bs.take k))).1.start_reading = true →
      ∀ a ∈ onByteAccesses sig (read sig s (backToBack (bs.take k))).1 (bs.getD k 0),
        a.isRead = true → 0 ≤ a.index ∧ a.index ≤ (k : Int)) := by
  have hb' : ∀ b ∈ bs.take 255, b < 256 := fun b hb2 => hb b (List.mem_of_mem_take hb2)
  rw [read_backToBack_fst] at hret
  obtain ⟨q, hq, hfirst⟩ := first_completion_of_return sig s (bs.take 255) hH hE hlen hb' hret
  have hqle : q ≤ 255 := by
    have hq' := hq
    unfold completesAt trailerEndsAt at hq'
    simp only [Bool.and_eq_true, decide_eq_true_eq] at hq'
    have := hq'.2.1.2
    rw [List.length_take] at this
    omega
  obtain ⟨a1, a2, a3, a4⟩ := feed_short_result sig s (bs.take 255) q hH hE hH3 hE3 hEF hlen hb'
    hqle hq hfirst
  obtain ⟨b1, b2, b3, b4⟩ := feed_short_result sig { s with serial_data := sd2 } (bs.take 255) q
    hH hE hH3 hE3 hEF hlen2 hb' hqle hq hfirst
  have hbs : bs = bs.take 255 ++ bs.drop 255 := (List.take_append_drop 255 bs).symm
  have hA := feed_append_stopped sig (readEntry s) (bs.take 255) (bs.drop 255) a1
  have hB := feed_append_stopped sig (readEntry { s with serial_data := sd2 }) (bs.take 255)
    (bs.drop 255) b1
  rw [← hbs] at hA hB
  have hdrop : (bs.take 255).drop q ++ bs.drop 255 = bs.drop q := by
    conv_rhs => rw [hbs]
    rw [List.drop_append_of_le_length (by
      have hq' := hq
      unfold completesAt trailerEndsAt at hq'
      simp only [Bool.and_eq_true, decide_eq_true_eq] at hq'
      exact hq'.2.1.2)]
  refine ⟨?_, ?_, ?_, ?_, ?_, ⟨q, hqle, ?_, ?_, ?_⟩, ?_⟩
  · rw [read_backToBack_fst, hA]
    exact a1
  · rw [read_backToBack_fst, hB]
    exact b1
  · rw [read_backToBack_snd, read_backToBack_snd, hA, hB]
    show backToBack ((feed sig _ (bs.take 255)).2 ++ _) = backToBack ((feed sig _ (bs.take 255)).2 ++ _)
    rw [a2, b2]
  · rw [read_backToBack_fst, read_backToBack_fst, hA, hB]
    show (feed sig _ (bs.take 255)).1.someone = (feed sig _ (bs.take 255)).1.someone
    rw [a3, b3]
  · rw [read_backToBack_fst, read_backToBack_fst, hA, hB]
    show (feed sig _ (bs.take 255)).1.distance = (feed sig _ (bs.take 255)).1.distance
    rw [a4, b4]
  · rw [read_backToBack_snd, hA]
    show backToBack ((feed sig _ (bs.take 255)).2 ++ _) = _
    rw [a2, hdrop]
  · rw [read_backToBack_fst, hA]
    exact a3
  · rw [read_backToBack_fst, hA]
    exact a4
  · intro k hk255 hklen hrun
    rw [read_backToBack_fst] at hrun ⊢
    have hlk : (bs.take k).length = k := by
      rw [List.length_take]
      omega
    have hbk : ∀ b ∈ bs.take k, b < 256 := fun b hb2 => hb b (List.mem_of_mem_take hb2)
    have hnc := no_completion_of_running sig s (bs.take k) hH hE hlen hbk hrun
    have hstate := feed_afterBytes sig s (bs.take k) hH hE hH3 hlen (by omega) hbk
      (fun p h13 hp => no_trailer_of_no_completion sig _ p hE hE3 h13 (by omega) (hnc p))
    rw [← readEntry_eq_afterBytes sig s] at hstate
    rw [hstate]
    have := onByteAccesses_reads_stored sig s (bs.take k) (bs.getD k 0) hH hE hH3 hEF hlen
      (by omega)
    rw [hlk] at this
    exact this

end Rd03

namespace Rd03

set_option maxRecDepth 100000 in
/-- Witness of C18: the example frame read from a zeroed buffer and from a buffer
full of stale `0xF1` bytes gives the same reading, presence 1 at distance 5. -/
theorem no_stale_bytes_witness :
    (sampleSignatures.FRAME_HEADER.getD 3 0 = FH_LAST ∧
      sampleSignatures.FRAME_END.getD 3 0 = FE_LAST ∧
      (∀ i, i < 3 → sampleSignatures.FRAME_END.getD i 0 ≠ FH_LAST) ∧
      staleBuffer.buffer.length = 512 ∧
      (read sampleSignatures freshDevice
        (backToBack ((exampleFrame sampleSignatures 0 0).take 255))).1.start_reading = false) ∧
    (read sampleSignatures { freshDevice with serial_data := staleBuffer }
      (backToBack (exampleFrame sampleSignatures 0 0))).1.start_reading = false ∧
    (read sampleSignatures { freshDevice with serial_data := staleBuffer }
      (backToBack (exampleFrame sampleSignatures 0 0))).1.someone =
      (read sampleSignatures freshDevice
        (backToBack (exampleFrame sampleSignatures 0 0))).1.someone ∧
    (read sampleSignatures { freshDevice with serial_data := staleBuffer }
      (backToBack (exampleFrame sampleSignatures 0 0))).1.distance =
      (read sampleSignatures freshDevice
        (backToBack (exampleFrame sampleSignatures 0 0))).1.distance ∧
    (read sampleSignatures freshDevice
      (backToBack (exampleFrame sampleSignatures 0 0))).1.someone = 1 :=
  ⟨⟨rfl, rfl, by decide, List.length_replicate 512 0xF1, by decide⟩,
    (no_stale_bytes sampleSignatures freshDevice staleBuffer (exampleFrame sampleSignatures 0 0)
      rfl rfl rfl rfl (by decide) freshDevice_buffer_length (List.length_replicate 512 0xF1)
      (by decide) (by decide)).2.1,
    (no_stale_bytes sampleSignatures freshDevice staleBuffer (exampleFrame sampleSignatures 0 0)
      rfl rfl rfl rfl (by decide) freshDevice_buffer_length (List.length_replicate 512 0xF1)
      (by decide) (by decide)).2.2.2.1,
    (no_stale_bytes sampleSignatures freshDevice staleBuffer (exampleFrame sampleSignatures 0 0)
      rfl rfl rfl rfl (by decide) freshDevice_buffer_length (List.length_replicate 512 0xF1)
      (by decide) (by decide)).2.2.2.2.1,
    by decide⟩

end Rd03
